import Mathlib

/-!
Verification of the jamdict dictionary library against its design specification.

The Python sources are embedded shallowly:
* the entity model (`jmdict.py`) becomes Lean structures;
* the relational mapper (`jmdict_sqlite.py`) becomes pure functions over a
  `DB` value holding the rows of every table (SQLite rowids are modelled by
  per-table row counters; selection preserves insertion order, as SQLite does
  for these append-only tables);
* the lookup engine (`util.py`) becomes a function returning `Except`, with
  the external character store and name-entity store abstracted as function
  parameters (they are separate stores in the design);
* the XML parsers (`jmdict.py`, `kanjidic2.py`) operate on an `XNode` tree
  modelling the ElementTree API; a raised Python exception is an
  `Except.error`;
* the radical index builder (`krad.py`) becomes a fold over the resource
  lines, with the two dictionaries modelled as functions.

`idseq` is the numeric entry sequence number.  In Python it flows as a digit
string out of the XML parser and as an INTEGER inside SQLite; both are
modelled by the canonical `Nat` value.  Python element text (`child.text`)
can be `None`; it is modelled as `""` (no claim depends on the difference).
-/

namespace Jamdict

/-- A loanword source (`LSource` in `jmdict.py`). -/
structure LSource where
  lang : String
  lstype : String
  wasei : String
  text : String
deriving DecidableEq, Repr

/-- A gloss of a sense (`SenseGloss` in `jmdict.py`). -/
structure SenseGloss where
  lang : String
  gend : String
  text : String
deriving DecidableEq, Repr

/-- One meaning of an entry (`Sense` in `jmdict.py`).  The name-dictionary
variant `Translation` shares this shape and additionally fills `name_type`
(the tagged-union modelling suggested by the design notes); plain word
senses leave `name_type` empty, exactly as the Python base class does. -/
structure Sense where
  stagk : List String
  stagr : List String
  pos : List String
  xref : List String
  antonym : List String
  field : List String
  misc : List String
  info : List String
  lsource : List LSource
  dialect : List String
  gloss : List SenseGloss
  examples : List String
  name_type : List String
deriving DecidableEq, Repr

/-- `Sense()` — a freshly constructed sense: every list empty. -/
def emptySense : Sense := ⟨[], [], [], [], [], [], [], [], [], [], [], [], []⟩

/-- A kanji written form (`KanjiForm` in `jmdict.py`). -/
structure KanjiForm where
  text : String
  info : List String
  pri : List String
deriving DecidableEq, Repr

/-- A kana written form (`KanaForm` in `jmdict.py`). -/
structure KanaForm where
  text : String
  nokanji : Bool
  restr : List String
  info : List String
  pri : List String
deriving DecidableEq, Repr

/-- `Link` element of an entry's info block. -/
structure Link where
  tag : String
  desc : String
  uri : String
deriving DecidableEq, Repr

/-- Bibliographic info element. -/
structure BibInfo where
  tag : String
  text : String
deriving DecidableEq, Repr

/-- Audit trail element. -/
structure Audit where
  upd_date : String
  upd_detl : String
deriving DecidableEq, Repr

/-- A row of the `Etym` table (columns `idseq`, `text`). -/
structure EtymRow where
  idseq : Nat
  text : String
deriving DecidableEq, Repr

/-- A value stored in `EntryInfo.etym`.  Python lists are heterogeneous: the
XML parser appends the plain text string of the `etym` element, while
`JMDictSQLite.get_entry` appends the whole selected `Etym` database row
object (`entry.info.etym.append(e)` — not `e.text`).  Both possibilities
must therefore exist in the model. -/
inductive EtymVal where
  | str : String → EtymVal
  | row : EtymRow → EtymVal
deriving DecidableEq, Repr

/-- General information block of an entry (`EntryInfo` in `jmdict.py`). -/
structure EntryInfo where
  links : List Link
  bibinfo : List BibInfo
  etym : List EtymVal
  audit : List Audit
deriving DecidableEq, Repr

/-- A dictionary word entry (`JMDEntry` in `jmdict.py`). -/
structure JMDEntry where
  idseq : Nat
  kanji_forms : List KanjiForm
  kana_forms : List KanaForm
  info : Option EntryInfo
  senses : List Sense
deriving DecidableEq, Repr

/-- `JMDEntry()` — a freshly constructed entry (idseq `''` modelled as 0). -/
def emptyJMDEntry : JMDEntry := ⟨0, [], [], none, []⟩

/-! ## Relational rows and the database (`jmdict_sqlite.py`)

One list per table, in the order the tables are declared in
`JMDictSchema.__init__`.  Surrogate `ID` columns are SQLite rowids; they are
modelled by the number of rows already in the table, which makes them unique
across an append-only history (their only required property). -/

/-- Row of the `Link` table that `get_entry` reads (`idseq`,`tag`,`desc`,`uri`;
the surrogate `ID` column is never read back). -/
structure LinkRow where
  idseq : Nat
  tag : String
  desc : String
  uri : String
deriving DecidableEq, Repr

/-- Row of the `Bib` table. -/
structure BibRow where
  idseq : Nat
  tag : String
  text : String
deriving DecidableEq, Repr

/-- Row of the `Audit` table. -/
structure AuditRow where
  idseq : Nat
  upd_date : String
  upd_detl : String
deriving DecidableEq, Repr

/-- Row of the `Kanji` table. -/
structure KanjiRow where
  ID : Nat
  idseq : Nat
  text : String
deriving DecidableEq, Repr

/-- Row of the child tables keyed by a kanji/kana surrogate id
(`KJI`, `KJP`, `KNI`, `KNP`, `KNR`). -/
structure KidRow where
  kid : Nat
  text : String
deriving DecidableEq, Repr

/-- Row of the `Kana` table. -/
structure KanaRow where
  ID : Nat
  idseq : Nat
  text : String
  nokanji : Bool
deriving DecidableEq, Repr

/-- Row of the `Sense` table. -/
structure SenseRow where
  ID : Nat
  idseq : Nat
deriving DecidableEq, Repr

/-- Row of the sense child tables holding one string
(`stagk`, `stagr`, `pos`, `xref`, `antonym`, `field`, `misc`, `SenseInfo`,
`dialect`). -/
structure SidRow where
  sid : Nat
  text : String
deriving DecidableEq, Repr

/-- Row of the `SenseSource` table (`sid`,`text`,`lang`,`lstype`,`wasei`). -/
structure SenseSourceRow where
  sid : Nat
  text : String
  lang : String
  lstype : String
  wasei : String
deriving DecidableEq, Repr

/-- Row of the `SenseGloss` table (`sid`,`lang`,`gend`,`text`). -/
structure SenseGlossRow where
  sid : Nat
  lang : String
  gend : String
  text : String
deriving DecidableEq, Repr

/-- The JMDict relational store: one list of rows per table. -/
structure DB where
  entry : List Nat
  link : List LinkRow
  bib : List BibRow
  etym : List EtymRow
  audit : List AuditRow
  kanji : List KanjiRow
  kji : List KidRow
  kjp : List KidRow
  kana : List KanaRow
  kni : List KidRow
  knp : List KidRow
  knr : List KidRow
  sense : List SenseRow
  stagk : List SidRow
  stagr : List SidRow
  pos : List SidRow
  xref : List SidRow
  antonym : List SidRow
  field : List SidRow
  misc : List SidRow
  senseInfo : List SidRow
  senseSource : List SenseSourceRow
  dialect : List SidRow
  senseGloss : List SenseGlossRow
deriving DecidableEq, Repr

/-- A freshly created (schema-only) database. -/
def emptyDB : DB :=
  ⟨[], [], [], [], [], [], [], [], [], [], [], [], [], [], [], [], [], [],
   [], [], [], [], [], []⟩

/-! ## Insert path (`JMDictSQLite.insert_entry`) -/

/-- Insert one kanji form and its `KJI`/`KJP` children (the `# insert kanji`
block of `insert_entry`).  `ctx.Kanji.insert` returns the generated surrogate
row id, used as the foreign key of the children. -/
def insertKanjiForm (db : DB) (idseq : Nat) (kj : KanjiForm) : DB :=
  let kjid := db.kanji.length
  { db with
    kanji := db.kanji ++ [⟨kjid, idseq, kj.text⟩],
    kji := db.kji ++ kj.info.map (fun t => ⟨kjid, t⟩),
    kjp := db.kjp ++ kj.pri.map (fun t => ⟨kjid, t⟩) }

/-- Insert one kana form and its `KNI`/`KNP`/`KNR` children. -/
def insertKanaForm (db : DB) (idseq : Nat) (kn : KanaForm) : DB :=
  let knid := db.kana.length
  { db with
    kana := db.kana ++ [⟨knid, idseq, kn.text, kn.nokanji⟩],
    kni := db.kni ++ kn.info.map (fun t => ⟨knid, t⟩),
    knp := db.knp ++ kn.pri.map (fun t => ⟨knid, t⟩),
    knr := db.knr ++ kn.restr.map (fun t => ⟨knid, t⟩) }

/-- Insert one sense and all its child rows. -/
def insertSense (db : DB) (idseq : Nat) (s : Sense) : DB :=
  let sid := db.sense.length
  { db with
    sense := db.sense ++ [⟨sid, idseq⟩],
    stagk := db.stagk ++ s.stagk.map (fun t => ⟨sid, t⟩),
    stagr := db.stagr ++ s.stagr.map (fun t => ⟨sid, t⟩),
    pos := db.pos ++ s.pos.map (fun t => ⟨sid, t⟩),
    xref := db.xref ++ s.xref.map (fun t => ⟨sid, t⟩),
    antonym := db.antonym ++ s.antonym.map (fun t => ⟨sid, t⟩),
    field := db.field ++ s.field.map (fun t => ⟨sid, t⟩),
    misc := db.misc ++ s.misc.map (fun t => ⟨sid, t⟩),
    senseInfo := db.senseInfo ++ s.info.map (fun t => ⟨sid, t⟩),
    senseSource :=
      db.senseSource ++ s.lsource.map (fun l => ⟨sid, l.text, l.lang, l.lstype, l.wasei⟩),
    dialect := db.dialect ++ s.dialect.map (fun t => ⟨sid, t⟩),
    senseGloss := db.senseGloss ++ s.gloss.map (fun g => ⟨sid, g.lang, g.gend, g.text⟩) }

/-- An etym value as an SQL parameter.  The parser produces strings, which
bind fine; a database row object (as produced by `get_entry`) is not a value
sqlite3 can bind, so passing one raises — modelled as `none`. -/
def EtymVal.toParam : EtymVal → Option String
  | .str s => some s
  | .row _ => none

/-- `JMDictSQLite.insert_entry`: insert the entry row, the info children, the
kanji forms, the kana forms, and the senses, in the statement order of the
Python function. -/
def insertEntry (entry : JMDEntry) (db : DB) : Option DB := do
  let db := { db with entry := db.entry ++ [entry.idseq] }
  let db ←
    match entry.info with
    | none => some db
    | some i => do
        let db := { db with
          link := db.link ++
            i.links.map (fun (l : Link) => (⟨entry.idseq, l.tag, l.desc, l.uri⟩ : LinkRow)) }
        let db := { db with
          bib := db.bib ++
            i.bibinfo.map (fun (b : BibInfo) => (⟨entry.idseq, b.tag, b.text⟩ : BibRow)) }
        let etymTexts ← i.etym.mapM EtymVal.toParam
        let db := { db with
          etym := db.etym ++ etymTexts.map (fun t => (⟨entry.idseq, t⟩ : EtymRow)) }
        some { db with
          audit := db.audit ++
            i.audit.map (fun (a : Audit) => (⟨entry.idseq, a.upd_date, a.upd_detl⟩ : AuditRow)) }
  let db := entry.kanji_forms.foldl (fun db kj => insertKanjiForm db entry.idseq kj) db
  let db := entry.kana_forms.foldl (fun db kn => insertKanaForm db entry.idseq kn) db
  some (entry.senses.foldl (fun db s => insertSense db entry.idseq s) db)

/-! ## Read path (`JMDictSQLite.get_entry`) -/

/-- Rebuild one sense from its rows (`# select senses` body of `get_entry`). -/
def getSense (db : DB) (sid : Nat) : Sense :=
  { emptySense with
    stagk := (db.stagk.filter (fun r => r.sid == sid)).map (fun r => r.text),
    stagr := (db.stagr.filter (fun r => r.sid == sid)).map (fun r => r.text),
    pos := (db.pos.filter (fun r => r.sid == sid)).map (fun r => r.text),
    xref := (db.xref.filter (fun r => r.sid == sid)).map (fun r => r.text),
    antonym := (db.antonym.filter (fun r => r.sid == sid)).map (fun r => r.text),
    field := (db.field.filter (fun r => r.sid == sid)).map (fun r => r.text),
    misc := (db.misc.filter (fun r => r.sid == sid)).map (fun r => r.text),
    info := (db.senseInfo.filter (fun r => r.sid == sid)).map (fun r => r.text),
    lsource := (db.senseSource.filter (fun r => r.sid == sid)).map
      (fun r => ⟨r.lang, r.lstype, r.wasei, r.text⟩),
    dialect := (db.dialect.filter (fun r => r.sid == sid)).map (fun r => r.text),
    gloss := (db.senseGloss.filter (fun r => r.sid == sid)).map
      (fun r => ⟨r.lang, r.gend, r.text⟩) }

/-- `JMDictSQLite.get_entry`: reconstruct an entry from the tables.  Note the
faithful quirk in the etym block: the Python code appends the selected row
object itself (`entry.info.etym.append(e)`), not its `text` column. -/
def getEntry (db : DB) (idseq : Nat) : JMDEntry :=
  let dblinks := db.link.filter (fun r => r.idseq == idseq)
  let dbbibs := db.bib.filter (fun r => r.idseq == idseq)
  let dbetym := db.etym.filter (fun r => r.idseq == idseq)
  let dbaudit := db.audit.filter (fun r => r.idseq == idseq)
  let info : Option EntryInfo :=
    if !dblinks.isEmpty || !dbbibs.isEmpty || !dbetym.isEmpty || !dbaudit.isEmpty then
      some
        { links := dblinks.map (fun l => ⟨l.tag, l.desc, l.uri⟩),
          bibinfo := dbbibs.map (fun b => ⟨b.tag, b.text⟩),
          etym := dbetym.map EtymVal.row,
          audit := dbaudit.map (fun a => ⟨a.upd_date, a.upd_detl⟩) }
    else none
  { idseq := idseq
    kanji_forms := (db.kanji.filter (fun r => r.idseq == idseq)).map (fun dbkj =>
      { text := dbkj.text
        info := (db.kji.filter (fun r => r.kid == dbkj.ID)).map (fun r => r.text)
        pri := (db.kjp.filter (fun r => r.kid == dbkj.ID)).map (fun r => r.text) })
    kana_forms := (db.kana.filter (fun r => r.idseq == idseq)).map (fun dbkn =>
      { text := dbkn.text
        nokanji := dbkn.nokanji
        info := (db.kni.filter (fun r => r.kid == dbkn.ID)).map (fun r => r.text)
        pri := (db.knp.filter (fun r => r.kid == dbkn.ID)).map (fun r => r.text)
        restr := (db.knr.filter (fun r => r.kid == dbkn.ID)).map (fun r => r.text) })
    info := info
    senses := (db.sense.filter (fun r => r.idseq == idseq)).map (fun dbs =>
      getSense db dbs.ID) }

/-! ## Search path (`JMDictSQLite.search`) -/

/-- ASCII lower-casing, as used by SQLite's default `LIKE` (which is
case-insensitive for ASCII letters only). -/
def asciiLower (c : Char) : Char :=
  if 'A' ≤ c ∧ c ≤ 'Z' then Char.ofNat (c.toNat + 32) else c

/-- SQLite `LIKE` matching: `%` matches any run of characters, `_` matches
exactly one character, anything else matches itself up to ASCII case. -/
def likeMatch : List Char → List Char → Bool
  | [], s => s.isEmpty
  | '%' :: ps, s => s.tails.any (fun s2 => likeMatch ps s2)
  | '_' :: ps, s =>
      (match s with
       | [] => false
       | _ :: s2 => likeMatch ps s2)
  | p :: ps, s =>
      (match s with
       | [] => false
       | c :: s2 => asciiLower p == asciiLower c && likeMatch ps s2)

/-- `'_' in query or '@' in query or '%' in query` — the wildcard-mode
heuristic of `JMDictSQLite.search`.  Note that `?` is not in this set. -/
def isWildcardQuery (q : String) : Bool :=
  q.data.contains '_' || q.data.contains '@' || q.data.contains '%'

/-- Models Python `int(...)` on the argument of an `id#` query: defined
exactly on (non-empty) decimal digit strings, which is the reserved query
form; a failing conversion is the `except` path of `search`. -/
def pyNat? (s : String) : Option Nat :=
  if s.data ≠ [] && s.data.all Char.isDigit then
    some (s.data.foldl (fun n c => n * 10 + (c.toNat - 48)) 0)
  else none

/-- `query.startswith(pre)`. -/
def pyStartsWith (q pre : String) : Bool :=
  pre.data.isPrefixOf q.data

/-- The `id#` override: `query.startswith('id#')` followed by a successful
non-negative integer conversion of the rest (`query[3:]`). -/
def idQueryNum (q : String) : Option Nat :=
  if pyStartsWith q "id#" then pyNat? (String.mk (q.data.drop 3)) else none

/-- The text predicate of the `WHERE` clause: `LIKE` in wildcard mode,
string equality otherwise. -/
def textPred (isWild : Bool) (query : String) (t : String) : Bool :=
  if isWild then likeMatch query.data t.data else t == query

/-- The `Entry.select(where, params)` of `JMDictSQLite.search`: entry ids
whose kanji text, kana text or sense gloss text matches the query — unless
the query has the reserved `id#` form, in which case the `WHERE` clause is
replaced by `idseq = ?`. -/
def searchIds (db : DB) (query : String) : List Nat :=
  match idQueryNum query with
  | some n => db.entry.filter (fun i => i == n)
  | none =>
      let isWild := isWildcardQuery query
      db.entry.filter (fun i =>
        db.kanji.any (fun r => r.idseq == i && textPred isWild query r.text) ||
        db.kana.any (fun r => r.idseq == i && textPred isWild query r.text) ||
        db.sense.any (fun s => s.idseq == i &&
          db.senseGloss.any (fun g => g.sid == s.ID && textPred isWild query g.text)))

/-- `JMDictSQLite.search`: the matching entries, fully reconstructed.  The
Python signature is `search(self, query, ctx=None, **kwargs)`: a `pos=...`
keyword argument sent by `Jamdict.lookup` is absorbed by `**kwargs` and never
used, which is why this function has no pos parameter. -/
def search (db : DB) (query : String) : List JMDEntry :=
  (searchIds db query).map (getEntry db)

/-! ## Character records (`kanjidic2.py` model classes) -/

/-- `CodePoint{cp_type, value}`. -/
structure CodePoint where
  cp_type : String
  value : String
deriving DecidableEq, Repr

/-- `Radical{rad_type, value}` of `kanjidic2.py`. -/
structure Radical where
  rad_type : String
  value : String
deriving DecidableEq, Repr

/-- `Variant{var_type, value}`. -/
structure Variant where
  var_type : String
  value : String
deriving DecidableEq, Repr

/-- `DicRef{dr_type, value, m_vol, m_page}`. -/
structure DicRef where
  dr_type : String
  value : String
  m_vol : String
  m_page : String
deriving DecidableEq, Repr

/-- `QueryCode{qc_type, value, skip_misclass}`. -/
structure QueryCode where
  qc_type : String
  value : String
  skip_misclass : String
deriving DecidableEq, Repr

/-- `Reading{r_type, value, on_type, r_status}`. -/
structure Reading where
  r_type : String
  value : String
  on_type : String
  r_status : String
deriving DecidableEq, Repr

/-- `Meaning{value, m_lang}`. -/
structure Meaning where
  value : String
  m_lang : String
deriving DecidableEq, Repr

/-- `RMGroup{readings, meanings}`. -/
structure RMGroup where
  readings : List Reading
  meanings : List Meaning
deriving DecidableEq, Repr

/-- A kanji character record (`Character` in `kanjidic2.py`). -/
structure Character where
  literal : String
  codepoints : List CodePoint
  radicals : List Radical
  stroke_count : Option Nat
  grade : Option String
  stroke_miscounts : List Nat
  variants : List Variant
  freq : Option String
  rad_names : List String
  jlpt : Option String
  dic_refs : List DicRef
  query_codes : List QueryCode
  rm_groups : List RMGroup
  nanoris : List String
deriving DecidableEq, Repr

/-- `Character()` — a freshly constructed character record. -/
def emptyCharacter : Character :=
  ⟨"", [], [], none, none, [], [], none, [], none, [], [], [], []⟩

/-! ## Lookup engine (`Jamdict.lookup` in `util.py`)

The character store (`Jamdict.get_char`, backed by the kanjidic2 tables) and
the name-entity store (`JMNEDictSQLite.search_ne`) are separate stores in
the design; they enter the model as function parameters.  The chirptext
`HIRAGANA`/`KATAKANA` constants are external resources, passed as character
lists. -/

/-- The combined result of one lookup (`LookupResult` in `util.py`). -/
structure LookupResult where
  entries : List JMDEntry
  chars : List Character
  names : List JMDEntry
deriving DecidableEq, Repr

/-- The two exceptions `Jamdict.lookup` can raise before searching. -/
inductive LookupErr where
  /-- `LookupError("There is no backend data available")` -/
  | noBackend : LookupErr
  /-- `ValueError("Query and POS filter cannot be both empty")` -/
  | emptyQuery : LookupErr
deriving DecidableEq, Repr

/-- Ordered-dict key insertion: a repeated key keeps its first position. -/
def odInsert (ks : List Char) (c : Char) : List Char :=
  if c ∈ ks then ks else ks ++ [c]

/-- One character of a kanji-form text: added to the key set when it is
neither hiragana nor katakana (`if c not in HIRAGANA and c not in KATAKANA`). -/
def kanjiCharStep (hira kata : List Char) (acc : List Char) (c : Char) : List Char :=
  if !(hira.contains c) && !(kata.contains c) then odInsert acc c else acc

/-- Add the non-kana characters of one kanji-form text
(the innermost `for c in k.text` loop of `Jamdict.lookup`). -/
def addKanjiChars (hira kata : List Char) (acc : List Char) (t : List Char) : List Char :=
  t.foldl (kanjiCharStep hira kata) acc

/-- Add the characters of a list of kanji forms. -/
def addFormsChars (hira kata : List Char) (acc : List Char) (ks : List KanjiForm) : List Char :=
  ks.foldl (fun acc k => addKanjiChars hira kata acc k.text.data) acc

/-- Add the characters of all kanji forms of one entry. -/
def addEntryChars (hira kata : List Char) (acc : List Char) (e : JMDEntry) : List Char :=
  addFormsChars hira kata acc e.kanji_forms

/-- The ordered key set `chars_to_search` of `Jamdict.lookup`: every
character of the query string, then — unless `strict_lookup` is set, and
only when some entry matched — every non-kana character of every kanji form
of every matched entry. -/
def charsToSearch (query : String) (strict : Bool) (entries : List JMDEntry)
    (hira kata : List Char) : List Char :=
  let base := query.data.foldl odInsert []
  if !strict && !entries.isEmpty then
    entries.foldl (addEntryChars hira kata) base
  else base

/-- The `chars` list assembled by `Jamdict.lookup`: each key resolved through
the character store, keys without a record silently skipped. -/
def lookupChars (query : String) (strict : Bool) (entries : List JMDEntry)
    (store : Char → Option Character) (hira kata : List Char) : List Character :=
  (charsToSearch query strict entries hira kata).filterMap store

/-- `Jamdict.lookup`.  `available` is `self.is_available()`; `hasKD2` is
`self.has_kd2()`; `hasJmne` is `self.has_jmne(ctx)`; `neSearch` is the
name-entity store's `search_ne`.  A `pos=None`/`pos=""`/`pos=[]` argument
(all falsy in Python) is modelled as `[]`.  The word search runs against the
relational backend (`self.jmdict is not None`); note that `search` receives
the pos filter in Python but discards it. -/
def lookup (available : Bool) (db : DB) (hasKD2 hasJmne : Bool)
    (store : Char → Option Character) (hira kata : List Char)
    (neSearch : String → List JMDEntry)
    (query : String) (strict_lookup lookup_chars lookup_ne : Bool)
    (pos : List String) : Except LookupErr LookupResult :=
  if !available then .error .noBackend
  else if (query == "" || query == "%") && pos.isEmpty then .error .emptyQuery
  else
    let entries := search db query
    let chars :=
      if lookup_chars && hasKD2 then
        lookupChars query strict_lookup entries store hira kata
      else []
    let names := if lookup_ne && hasJmne then neSearch query else []
    .ok ⟨entries, chars, names⟩

/-! ## In-memory XML backend (`JMDictXML` in `util.py`) -/

/-- The set `self._textmap[q]`: entries having a kana or kanji form whose
text equals the query (each entry listed once, in document order; Python
keeps them in an unordered set). -/
def textMatches (xs : List JMDEntry) (q : String) : List JMDEntry :=
  xs.filter (fun e =>
    e.kana_forms.any (fun k => k.text == q) || e.kanji_forms.any (fun k => k.text == q))

/-- The dict `self._seqmap`: built by overwriting, so the last entry with a
given idseq wins. -/
def seqMap (xs : List JMDEntry) (i : Nat) : Option JMDEntry :=
  xs.foldl (fun res e => if e.idseq == i then some e else res) none

/-- `JMDictXML.lookup`: an exact text match is tried first; only when the
query is not a key of the text map does the `id#` branch run. -/
def xmlLookup (xs : List JMDEntry) (q : String) : List JMDEntry :=
  if !(textMatches xs q).isEmpty then textMatches xs q
  else if pyStartsWith q "id#" then
    match pyNat? (String.mk (q.data.drop 3)) with
    | some n =>
        match seqMap xs n with
        | some e => [e]
        | none => []
    | none => []
  else []

/-! ## XML elements

An ElementTree node: tag, attribute dictionary, text content, child list. -/

/-- An XML element as the parsers see it. -/
inductive XNode where
  | mk (tag : String) (attribs : List (String × String)) (text : String)
       (children : List XNode)

/-- The tag of an element. -/
def XNode.tag : XNode → String
  | .mk t _ _ _ => t

/-- The attribute dictionary of an element. -/
def XNode.attribs : XNode → List (String × String)
  | .mk _ a _ _ => a

/-- The text content of an element (Python `None` modelled as `""`). -/
def XNode.text : XNode → String
  | .mk _ _ s _ => s

/-- The child elements. -/
def XNode.children : XNode → List XNode
  | .mk _ _ _ c => c

/-- The key Python substitutes for `xml:lang` (the expanded XML-namespace
attribute name used by ElementTree). -/
def xmlLangKey : String := "\x7bhttp://www.w3.org/XML/1998/namespace\x7dlang"

/-- `get_attrib` (identical in `JMDictXMLParser` and `Kanjidic2XMLParser`):
look the attribute up in the element's dictionary, falling back to the given
default when absent. -/
def getAttrib (a_tag : XNode) (attr_name : String) (default_value : String) : String :=
  let attr_name := if attr_name == "xml:lang" then xmlLangKey else attr_name
  match a_tag.attribs.lookup attr_name with
  | some v => v
  | none => default_value

/-! ## The JMDict/JMnedict document parser (`JMDictXMLParser`) -/

/-- `parse_ent_seq`: a second `ent_seq` under one entry raises.  The fresh
entry's idseq `''` is modelled as 0, so "already set" is `≠ 0`; the numeric
text is converted to its canonical `Nat` value. -/
def parse_ent_seq (seq_tag : XNode) (entry : JMDEntry) : Except String JMDEntry :=
  if entry.idseq ≠ 0 then .error "WARNING: duplicated ent_seq tag"
  else .ok { entry with idseq := (pyNat? seq_tag.text).getD 0 }

/-- `KanjiForm.set_text` / `KanaForm.set_text`: a duplicate text logs a
warning (advisory, non-fatal) and overwrites. -/
def setFormText (text : String) (t : String) : String :=
  let _ := text  -- the old value only feeds the warning
  t

/-- `parse_k_ele`: build one kanji form; an unrecognized child tag raises. -/
def parse_k_ele (k_ele : XNode) (entry : JMDEntry) : Except String JMDEntry := do
  let kr ← k_ele.children.foldlM (fun (kr : KanjiForm) child =>
    if child.tag == "keb" then .ok { kr with text := setFormText kr.text child.text }
    else if child.tag == "ke_inf" then .ok { kr with info := kr.info ++ [child.text] }
    else if child.tag == "ke_pri" then .ok { kr with pri := kr.pri ++ [child.text] }
    else .error ("WARNING: invalid tag " ++ child.tag ++ " in k_ele"))
    (⟨"", [], []⟩ : KanjiForm)
  .ok { entry with kanji_forms := entry.kanji_forms ++ [kr] }

/-- `parse_r_ele`: build one kana form; an unrecognized child tag raises. -/
def parse_r_ele (r_ele : XNode) (entry : JMDEntry) : Except String JMDEntry := do
  let kr ← r_ele.children.foldlM (fun (kr : KanaForm) child =>
    if child.tag == "reb" then .ok { kr with text := setFormText kr.text child.text }
    else if child.tag == "re_nokanji" then .ok { kr with nokanji := true }
    else if child.tag == "re_restr" then .ok { kr with restr := kr.restr ++ [child.text] }
    else if child.tag == "re_inf" then .ok { kr with info := kr.info ++ [child.text] }
    else if child.tag == "re_pri" then .ok { kr with pri := kr.pri ++ [child.text] }
    else .error ("WARNING: invalid tag " ++ child.tag ++ " in r_ele"))
    (⟨"", false, [], [], []⟩ : KanaForm)
  .ok { entry with kana_forms := entry.kana_forms ++ [kr] }

/-- `get_single`: the children with the given tag; more than one raises,
none yields Python `None`. -/
def get_single (tag_name : String) (a_tag : XNode) : Except String (Option XNode) :=
  match a_tag.children.filter (fun c => c.tag == tag_name) with
  | [] => .ok none
  | [c] => .ok (some c)
  | _ => .error ("There are multiple " ++ tag_name ++ " tags in " ++ a_tag.tag)

/-- Accessing `.text` on the result of `get_single`: Python raises
`AttributeError` when the element was absent (`None.text`). -/
def textOf (x : Option XNode) : Except String String :=
  match x with
  | some c => .ok c.text
  | none => .error "AttributeError: NoneType has no attribute text"

/-- `parse_link`: the three single-valued children of a `links` element. -/
def parse_link (link_tag : XNode) (einfo : EntryInfo) : Except String EntryInfo := do
  let tag ← textOf (← get_single "link_tag" link_tag)
  let desc ← textOf (← get_single "link_desc" link_tag)
  let uri ← textOf (← get_single "link_uri" link_tag)
  .ok { einfo with links := einfo.links ++ [⟨tag, desc, uri⟩] }

/-- `BibInfo.set_tag`/`set_text`: duplicates log a warning and overwrite. -/
def parse_bibinfo (bib_tag : XNode) (einfo : EntryInfo) : Except String EntryInfo := do
  let bib ← bib_tag.children.foldlM (fun (bib : BibInfo) child =>
    if child.tag == "bib_tag" then .ok { bib with tag := setFormText bib.tag child.text }
    else if child.tag == "bib_txt" then .ok { bib with text := setFormText bib.text child.text }
    else .error ("WARNING: invalid tag in bibinfo (child.tag = " ++ child.tag ++ ")"))
    (⟨"", ""⟩ : BibInfo)
  .ok { einfo with bibinfo := einfo.bibinfo ++ [bib] }

/-- `parse_info`: the entry's info block.  The `audit` arm calls
`self.parse_audit`, a method that does not exist anywhere in `jmdict.py`, so
reaching it raises `AttributeError` in Python — modelled as an error. -/
def parse_info (info_tag : XNode) (entry : JMDEntry) : Except String JMDEntry := do
  let einfo ← info_tag.children.foldlM (fun (einfo : EntryInfo) child =>
    if child.tag == "links" then parse_link child einfo
    else if child.tag == "bibl" then parse_bibinfo child einfo
    else if child.tag == "etym" then .ok { einfo with etym := einfo.etym ++ [.str child.text] }
    else if child.tag == "audit" then
      .error "AttributeError: JMDictXMLParser has no attribute parse_audit"
    else .error ("WARNING: invalid tag in info tag (child.tag = " ++ child.tag ++ ")"))
    (⟨[], [], [], []⟩ : EntryInfo)
  -- entry.set_info: a second info block logs a warning and overwrites
  .ok { entry with info := some einfo }

/-- `JMENDICT_TYPE_MAP_DECODE`: human-readable name-entity type → code. -/
def jmendictTypeDecode : List (String × String) :=
  [("family or surname", "surname"),
   ("place name", "place"),
   ("unclassified name", "unclass"),
   ("company name", "company"),
   ("product name", "product"),
   ("work of art, literature, music, etc. name", "work"),
   ("male given name or forename", "masc"),
   ("female given name or forename", "fem"),
   ("full name of a particular person", "person"),
   ("given name or forename, gender not specified", "given"),
   ("railway station", "station"),
   ("organization name", "organization"),
   ("old or irregular kana form", "ok")]

/-- `parse_ne_translation`: build the name-dictionary sense variant.  The
`trans_det` arm reads `xml:lang` from the enclosing `trans` element with
default `'eng'`. -/
def parse_ne_translation (trans_tag : XNode) (entry : JMDEntry) : Except String JMDEntry := do
  let translation ← trans_tag.children.foldlM (fun (t : Sense) child =>
    if child.tag == "name_type" then
      let nt := match jmendictTypeDecode.lookup child.text with
        | some v => v
        | none => child.text
      .ok { t with name_type := t.name_type ++ [nt] }
    else if child.tag == "trans_det" then
      let lang := getAttrib trans_tag "xml:lang" "eng"
      .ok { t with gloss := t.gloss ++ [⟨lang, "", child.text⟩] }
    else if child.tag == "xref" then .ok { t with xref := t.xref ++ [child.text] }
    else .error ("Invalid tag: " ++ child.tag ++ " in JMendict/trans tag"))
    emptySense
  .ok { entry with senses := entry.senses ++ [translation] }

/-- `parse_sensegloss`: one `gloss` child of a sense.  `xml:lang` and
`g_gend` are read with `get_attrib`'s default `''`. -/
def parse_sensegloss (gloss_tag : XNode) (sense : Sense) : Sense :=
  let lang := getAttrib gloss_tag "xml:lang" ""
  let gend := getAttrib gloss_tag "g_gend" ""
  let text := gloss_tag.text
  { sense with gloss := sense.gloss ++ [⟨lang, gend, text⟩] }

/-- `parse_lsource`: one `lsource` child of a sense. -/
def parse_lsource (lsource_tag : XNode) (sense : Sense) : Sense :=
  let lang := getAttrib lsource_tag "xml:lang" ""
  let lstype := getAttrib lsource_tag "ls_type" ""
  let wasei := getAttrib lsource_tag "ls_wasei" ""
  { sense with lsource := sense.lsource ++ [⟨lang, lstype, wasei, lsource_tag.text⟩] }

/-- `parse_sense`: build one word sense; an unrecognized child tag raises. -/
def parse_sense (sense_tag : XNode) (entry : JMDEntry) : Except String JMDEntry := do
  let sense ← sense_tag.children.foldlM (fun (s : Sense) child =>
    if child.tag == "stagk" then .ok { s with stagk := s.stagk ++ [child.text] }
    else if child.tag == "stagr" then .ok { s with stagr := s.stagr ++ [child.text] }
    else if child.tag == "pos" then .ok { s with pos := s.pos ++ [child.text] }
    else if child.tag == "xref" then .ok { s with xref := s.xref ++ [child.text] }
    else if child.tag == "ant" then .ok { s with antonym := s.antonym ++ [child.text] }
    else if child.tag == "field" then .ok { s with field := s.field ++ [child.text] }
    else if child.tag == "misc" then .ok { s with misc := s.misc ++ [child.text] }
    else if child.tag == "s_inf" then .ok { s with info := s.info ++ [child.text] }
    else if child.tag == "dial" then .ok { s with dialect := s.dialect ++ [child.text] }
    else if child.tag == "example" then .ok { s with examples := s.examples ++ [child.text] }
    else if child.tag == "lsource" then .ok (parse_lsource child s)
    else if child.tag == "gloss" then .ok (parse_sensegloss child s)
    else .error ("WARNING: invalid tag in sense tag (child.tag = " ++ child.tag ++ ")"))
    emptySense
  .ok { entry with senses := entry.senses ++ [sense] }

/-- The dispatch step of `parse_entry_tag` for one child element. -/
def entryChildStep (entry : JMDEntry) (child : XNode) : Except String JMDEntry :=
  if child.tag == "ent_seq" then parse_ent_seq child entry
  else if child.tag == "k_ele" then parse_k_ele child entry
  else if child.tag == "r_ele" then parse_r_ele child entry
  else if child.tag == "info" then parse_info child entry
  else if child.tag == "sense" then parse_sense child entry
  else if child.tag == "trans" then parse_ne_translation child entry
  else .error ("Invalid tag: " ++ child.tag)

/-- `parse_entry_tag`: fold the dispatch over the children of an `entry`
element; any raised exception aborts the entry. -/
def parse_entry_tag (etag : XNode) : Except String JMDEntry :=
  etag.children.foldlM entryChildStep emptyJMDEntry

/-- The child tags `parse_entry_tag` knows. -/
def isKnownEntryTag (t : String) : Bool :=
  t == "ent_seq" || t == "k_ele" || t == "r_ele" || t == "info" ||
  t == "sense" || t == "trans"

/-! ## The character-database parser (`Kanjidic2XMLParser`) -/

/-- `parse_codepoint`: unknown child tags are logged and skipped. -/
def parse_codepoint (e : XNode) (char : Character) : Character :=
  e.children.foldl (fun char child =>
    if child.tag == "cp_value" then
      { char with codepoints :=
          char.codepoints ++ [⟨getAttrib child "cp_type" "", child.text⟩] }
    else char) char

/-- `parse_radical`: unknown child tags are logged and skipped. -/
def parse_radical (e : XNode) (char : Character) : Character :=
  e.children.foldl (fun char child =>
    if child.tag == "rad_value" then
      { char with radicals :=
          char.radicals ++ [⟨getAttrib child "rad_type" "", child.text⟩] }
    else char) char

/-- `parse_misc`: the only fallible arm is `int(child.text)` for
`stroke_count`; unknown child tags are logged and skipped. -/
def parse_misc (e : XNode) (char : Character) : Except String Character :=
  e.children.foldlM (fun (char : Character) child =>
    if child.tag == "grade" then .ok { char with grade := some child.text }
    else if child.tag == "stroke_count" then
      match pyNat? child.text with
      | some n =>
          match char.stroke_count with
          | none => .ok { char with stroke_count := some n }
          | some _ => .ok { char with stroke_miscounts := char.stroke_miscounts ++ [n] }
      | none => .error ("ValueError: invalid literal for int: " ++ child.text)
    else if child.tag == "variant" then
      .ok { char with variants := char.variants ++ [⟨getAttrib child "var_type" "", child.text⟩] }
    else if child.tag == "freq" then .ok { char with freq := some child.text }
    else if child.tag == "rad_name" then
      .ok { char with rad_names := char.rad_names ++ [child.text] }
    else if child.tag == "jlpt" then .ok { char with jlpt := some child.text }
    else .ok char) char

/-- `parse_dic_refs`: unknown child tags are logged and skipped. -/
def parse_dic_refs (e : XNode) (char : Character) : Character :=
  e.children.foldl (fun char child =>
    if child.tag == "dic_ref" then
      { char with dic_refs := char.dic_refs ++
          [⟨getAttrib child "dr_type" "", child.text,
            getAttrib child "m_vol" "", getAttrib child "m_page" ""⟩] }
    else char) char

/-- `parse_query_code`: unknown child tags are logged and skipped. -/
def parse_query_code (e : XNode) (char : Character) : Character :=
  e.children.foldl (fun char child =>
    if child.tag == "q_code" then
      { char with query_codes := char.query_codes ++
          [⟨getAttrib child "qc_type" "", child.text,
            getAttrib child "skip_misclass" ""⟩] }
    else char) char

/-- One `rmgroup` element: readings and meanings in document order;
unknown grandchild tags are logged and skipped. -/
def parse_rmgroup (child : XNode) : RMGroup :=
  child.children.foldl (fun (g : RMGroup) grandchild =>
    if grandchild.tag == "reading" then
      { g with readings := g.readings ++
          [⟨getAttrib grandchild "r_type" "", grandchild.text,
            getAttrib grandchild "on_type" "", getAttrib grandchild "r_status" ""⟩] }
    else if grandchild.tag == "meaning" then
      { g with meanings := g.meanings ++
          [⟨grandchild.text, getAttrib grandchild "m_lang" ""⟩] }
    else g) ⟨[], []⟩

/-- `parse_reading_meaning`: unknown child tags are logged and skipped. -/
def parse_reading_meaning (e : XNode) (char : Character) : Character :=
  e.children.foldl (fun char child =>
    if child.tag == "nanori" then { char with nanoris := char.nanoris ++ [child.text] }
    else if child.tag == "rmgroup" then
      { char with rm_groups := char.rm_groups ++ [parse_rmgroup child] }
    else char) char

/-- The dispatch step of `parse_char` for one child element: an unknown tag
is only logged (`getLogger().warning(...)`) — the element is skipped and
parsing continues. -/
def charChildStep (char : Character) (child : XNode) : Except String Character :=
  if child.tag == "literal" then .ok { char with literal := child.text }
  else if child.tag == "codepoint" then .ok (parse_codepoint child char)
  else if child.tag == "radical" then .ok (parse_radical child char)
  else if child.tag == "misc" then parse_misc child char
  else if child.tag == "dic_number" then .ok (parse_dic_refs child char)
  else if child.tag == "query_code" then .ok (parse_query_code child char)
  else if child.tag == "reading_meaning" then .ok (parse_reading_meaning child char)
  else .ok char

/-- `Kanjidic2XMLParser.parse_char`. -/
def parse_char (e : XNode) : Except String Character :=
  e.children.foldlM charChildStep emptyCharacter

/-- The child tags `parse_char` knows. -/
def isKnownCharTag (t : String) : Bool :=
  t == "literal" || t == "codepoint" || t == "radical" || t == "misc" ||
  t == "dic_number" || t == "query_code" || t == "reading_meaning"

/-- Whether a child element's tag is one `parse_char` knows. -/
def knownCharChild (c : XNode) : Bool := isKnownCharTag c.tag

/-! ## The component index (`KRad._build_krad_map` in `krad.py`) -/

/-- Split a line at its first `:` (Python `line.split(':', maxsplit=1)`
returning two parts). -/
def splitColonOnce : List Char → Option (List Char × List Char)
  | [] => none
  | c :: cs =>
      if c = ':' then some ([], cs)
      else (splitColonOnce cs).map (fun p => (c :: p.1, p.2))

/-- Python `str.strip()`: drop leading and trailing whitespace. -/
def pyStrip (l : List Char) : String :=
  String.mk (((l.dropWhile Char.isWhitespace).reverse.dropWhile Char.isWhitespace).reverse)

/-- Python `str.split()` with no argument: split on whitespace runs, no
empty pieces. -/
def pySplitWs (l : List Char) : List (List Char) :=
  (l.splitOnP Char.isWhitespace).filter (fun x => x ≠ [])

/-- One line of the kradfile resource: `None` for comment lines and lines
without a `:`; otherwise the stripped character literal and the
whitespace-separated, stripped component list. -/
def parse_krad_line (line : String) : Option (String × List String) :=
  if pyStartsWith line "#" then none
  else
    match splitColonOnce line.data with
    | none => none
    | some (l, r) =>
        some (pyStrip l, (pySplitWs r).map pyStrip)

/-- Add an element to a set-as-list (Python `set.add`). -/
def setAdd (l : List String) (x : String) : List String :=
  if x ∈ l then l else l ++ [x]

/-- The pair of maps under construction: `krad` (character → component list,
a dict, so a later line for the same character overwrites) and `radk`
(component → set of characters, a defaultdict of sets). -/
def KRadMaps : Type := (String → Option (List String)) × (String → List String)

/-- Processing one parsed data line of the kradfile. -/
def kradStep (maps : KRadMaps) (p : String × List String) : KRadMaps :=
  (fun k => if k = p.1 then some p.2 else maps.1 k,
   fun r => if r ∈ p.2 then setAdd (maps.2 r) p.1 else maps.2 r)

/-- `KRad._build_krad_map`: build both maps from the resource lines. -/
def buildKradMaps (lines : List String) : KRadMaps :=
  (lines.filterMap parse_krad_line).foldl kradStep (fun _ => none, fun _ => [])

/-- `components_of`: the krad side (empty when the character is unknown). -/
def componentsOf (maps : KRadMaps) (c : String) : List String :=
  (maps.1 c).getD []

/-- `characters_with`: the radk side (empty when the component is unknown). -/
def charactersWith (maps : KRadMaps) (r : String) : List String :=
  maps.2 r

/-! ## Concrete fixtures used by the counterexamples and bug witnesses -/

/-- A store holding one entry `5` with the single kana form `おかげ`. -/
def dbOkage : DB := { emptyDB with entry := [5], kana := [⟨0, 5, "おかげ", false⟩] }

/-- A parsed entry with one etymology note in its info block, as the
document parser produces for `<info><etym>from Chinese</etym></info>`. -/
def entryEtym : JMDEntry :=
  { idseq := 7, kanji_forms := [], kana_forms := [⟨"おかげ", false, [], [], []⟩],
    info := some ⟨[], [], [EtymVal.str "from Chinese"], []⟩,
    senses := [emptySense] }

/-- A store holding entry `1002490` whose kana form is `おみやげ` and whose
only sense is tagged `noun (common) (futsuumeishi)`. -/
def dbOmiyage : DB :=
  { emptyDB with
    entry := [1002490],
    kana := [⟨0, 1002490, "おみやげ", false⟩],
    sense := [⟨0, 1002490⟩],
    pos := [⟨0, "noun (common) (futsuumeishi)"⟩] }

/-- An entry whose kana form is the literal string `id#1` (idseq 100). -/
def entryTextIdHash : JMDEntry := ⟨100, [], [⟨"id#1", false, [], [], []⟩], none, []⟩

/-- An ordinary entry with idseq 1. -/
def entryIdOne : JMDEntry := ⟨1, [], [⟨"く", false, [], [], []⟩], none, []⟩

/-- A parsed document where an entry's text collides with an `id#` query. -/
def xsIdClash : List JMDEntry := [entryTextIdHash, entryIdOne]

/-- A `character` element carrying an unrecognized child tag. -/
def charElemBogus : XNode := .mk "character" [] "" [.mk "bogus" [] "" []]

/-- An entry exercising every child table the mapper persists: two kanji
forms with info/priority codes, two kana forms with restriction and
nokanji, an info block with link, bibliography and audit rows, and two
senses populating all eleven sense child tables — but no etymology note
and no examples. -/
def entryRich : JMDEntry :=
  { idseq := 1001710,
    kanji_forms := [⟨"お菓子", ["word containing out-dated kanji"], ["ichi1"]⟩,
                    ⟨"御菓子", [], ["news2"]⟩],
    kana_forms := [⟨"おかし", false, ["お菓子"], [], ["ichi1"]⟩,
                   ⟨"おかしご", true, [], ["ok"], []⟩],
    info := some ⟨[⟨"pic", "an image", "http://example.com/a.png"⟩],
                  [⟨"tag1", "text1"⟩], [], [⟨"2007-01-01", "entry created"⟩]⟩,
    senses := [
      { emptySense with
        stagk := ["お菓子"], stagr := ["おかし"],
        pos := ["noun (common) (futsuumeishi)"],
        xref := ["菓子・1"], antonym := ["主食"],
        field := ["food term"], misc := ["polite (teineigo) language"],
        info := ["usu. written as kana"],
        lsource := [⟨"fre", "part", "y", "gateau"⟩],
        dialect := ["Kansai-ben"],
        gloss := [⟨"", "", "confections"⟩, ⟨"eng", "", "sweets"⟩] },
      { emptySense with
        pos := ["intransitive verb"],
        gloss := [⟨"", "", "second sense"⟩] }] }

/-- A second, smaller entry sharing the store with `entryRich`. -/
def entrySecond : JMDEntry :=
  ⟨5, [⟨"陰", [], []⟩], [⟨"おかげ", false, [], [], []⟩], none,
   [{ emptySense with gloss := [⟨"", "", "shadow"⟩] }]⟩

/-- Away from the etym slip the round trip does hold, child-list order
included: the all-tables entry comes back unchanged. -/
theorem insert_get_roundtrip_rich :
    (insertEntry entryRich emptyDB).map (fun db => getEntry db 1001710) =
      some entryRich := by decide

/-- The round trip also holds for a second entry inserted into the same
store, exercising the freshness of the surrogate row ids across entries. -/
theorem insert_get_roundtrip_two_entries :
    (((insertEntry entryRich emptyDB).bind (fun db => insertEntry entrySecond db)).map
      (fun db => (getEntry db 1001710, getEntry db 5))) =
      some (entryRich, entrySecond) := by decide

/-! ## Generic fold lemmas -/

/-- `x ∈ odInsert acc c ↔ x ∈ acc ∨ x = c`. -/
theorem mem_odInsert {x c : Char} {acc : List Char} :
    x ∈ odInsert acc c ↔ x ∈ acc ∨ x = c := by
  unfold odInsert
  split
  · rename_i h
    constructor
    · exact Or.inl
    · rintro (hx | rfl) <;> assumption
  · simp

/-- A fold whose step only grows the accumulator preserves membership. -/
theorem mem_foldl_of_mem {α : Type} {f : List Char → α → List Char}
    (hf : ∀ acc b x, x ∈ acc → x ∈ f acc b) :
    ∀ (l : List α) (acc : List Char) (x : Char), x ∈ acc → x ∈ l.foldl f acc := by
  intro l
  induction l with
  | nil => intro acc x hx; simpa using hx
  | cons b l ih =>
      intro acc x hx
      simpa using ih (f acc b) x (hf acc b x hx)

/-- A fold whose step preserves `Nodup` preserves `Nodup`. -/
theorem nodup_foldl {α : Type} {f : List Char → α → List Char}
    (hf : ∀ acc b, acc.Nodup → (f acc b).Nodup) :
    ∀ (l : List α) (acc : List Char), acc.Nodup → (l.foldl f acc).Nodup := by
  intro l
  induction l with
  | nil => intro acc h; simpa using h
  | cons b l ih => intro acc h; simpa using ih (f acc b) (hf acc b h)

/-- A fold whose every step appends fresh elements appends fresh elements. -/
theorem foldl_eq_append_ext {α : Type} {f : List Char → α → List Char}
    (hf : ∀ acc b, ∃ e, f acc b = acc ++ e ∧ ∀ x ∈ e, x ∉ acc) :
    ∀ (l : List α) (acc : List Char),
      ∃ ext, l.foldl f acc = acc ++ ext ∧ ∀ x ∈ ext, x ∉ acc := by
  intro l
  induction l with
  | nil => intro acc; exact ⟨[], by simp⟩
  | cons b l ih =>
      intro acc
      obtain ⟨e1, he1, hfresh1⟩ := hf acc b
      obtain ⟨e2, he2, hfresh2⟩ := ih (f acc b)
      refine ⟨e1 ++ e2, ?_, ?_⟩
      · rw [List.foldl_cons, he2, he1, List.append_assoc]
      · intro x hx
        rcases List.mem_append.mp hx with h | h
        · exact hfresh1 x h
        · intro hacc
          exact hfresh2 x h (by simp [he1, hacc])

/-- `odInsert` steps only grow the accumulator. -/
theorem odInsert_grows (acc : List Char) (c x : Char) (hx : x ∈ acc) :
    x ∈ odInsert acc c := mem_odInsert.mpr (Or.inl hx)

/-- `odInsert` preserves `Nodup`. -/
theorem odInsert_nodup (acc : List Char) (c : Char) (h : acc.Nodup) :
    (odInsert acc c).Nodup := by
  unfold odInsert
  split
  · exact h
  · rename_i hc
    exact List.Nodup.append h (List.nodup_singleton c) (by simpa using hc)

/-- `odInsert` appends only fresh elements. -/
theorem odInsert_ext (acc : List Char) (c : Char) :
    ∃ e, odInsert acc c = acc ++ e ∧ ∀ x ∈ e, x ∉ acc := by
  unfold odInsert
  split
  · exact ⟨[], by simp⟩
  · rename_i hc
    exact ⟨[c], rfl, by simpa using hc⟩

/-- Elements of `l.foldl odInsert acc` come from `acc` or `l`. -/
theorem mem_foldl_odInsert {x : Char} :
    ∀ (l : List Char) (acc : List Char), x ∈ l.foldl odInsert acc → x ∈ acc ∨ x ∈ l := by
  intro l
  induction l with
  | nil => intro acc h; exact Or.inl (by simpa using h)
  | cons c l ih =>
      intro acc h
      rcases ih (odInsert acc c) (by simpa using h) with h1 | h1
      · rcases mem_odInsert.mp h1 with h2 | rfl
        · exact Or.inl h2
        · exact Or.inr (by simp)
      · exact Or.inr (by simp [h1])

/-- Every element of `l` lands in `l.foldl odInsert acc`. -/
theorem foldl_odInsert_mem {x : Char} :
    ∀ (l : List Char) (acc : List Char), x ∈ l → x ∈ l.foldl odInsert acc := by
  intro l
  induction l with
  | nil => intro acc h; cases h
  | cons c l ih =>
      intro acc h
      rcases List.mem_cons.mp h with rfl | h
      · exact mem_foldl_of_mem (fun acc b y hy => odInsert_grows acc b y hy) l _ x
          (mem_odInsert.mpr (Or.inr rfl))
      · exact ih _ h

/-! ## Membership in the collected character keys -/

/-- A `kanjiCharStep` only grows the accumulator. -/
theorem kanjiCharStep_grows (hira kata : List Char) (acc : List Char) (c x : Char)
    (hx : x ∈ acc) : x ∈ kanjiCharStep hira kata acc c := by
  unfold kanjiCharStep
  split
  · exact odInsert_grows _ _ _ hx
  · exact hx

/-- A non-kana character is in its own step result. -/
theorem kanjiCharStep_inserts (hira kata : List Char) (acc : List Char) (c : Char)
    (h1 : hira.contains c = false) (h2 : kata.contains c = false) :
    c ∈ kanjiCharStep hira kata acc c := by
  unfold kanjiCharStep
  rw [h1, h2]
  simpa using mem_odInsert.mpr (Or.inr rfl)

/-- `addKanjiChars` only grows the accumulator. -/
theorem addKanjiChars_grows (hira kata : List Char) (acc t : List Char) (x : Char)
    (hx : x ∈ acc) : x ∈ addKanjiChars hira kata acc t :=
  mem_foldl_of_mem (fun acc c y hy => kanjiCharStep_grows hira kata acc c y hy) t acc x hx

/-- A non-kana character of the text lands in `addKanjiChars`. -/
theorem mem_addKanjiChars {hira kata : List Char} {t : List Char} {c : Char}
    (hc : c ∈ t) (h1 : hira.contains c = false) (h2 : kata.contains c = false) :
    ∀ acc, c ∈ addKanjiChars hira kata acc t := by
  induction t with
  | nil => cases hc
  | cons d t ih =>
      intro acc
      rcases List.mem_cons.mp hc with rfl | hc
      · show c ∈ List.foldl _ _ (c :: t)
        rw [List.foldl_cons]
        exact addKanjiChars_grows hira kata _ t c (kanjiCharStep_inserts hira kata acc c h1 h2)
      · show c ∈ List.foldl _ _ (d :: t)
        rw [List.foldl_cons]
        exact ih hc _

/-- `addFormsChars` only grows the accumulator. -/
theorem addFormsChars_grows (hira kata : List Char) (acc : List Char) (ks : List KanjiForm)
    (x : Char) (hx : x ∈ acc) : x ∈ addFormsChars hira kata acc ks :=
  mem_foldl_of_mem (fun acc k y hy => addKanjiChars_grows hira kata acc k.text.data y hy)
    ks acc x hx

/-- A non-kana character of one of the forms lands in `addFormsChars`. -/
theorem mem_addFormsChars {hira kata : List Char} {ks : List KanjiForm} {k : KanjiForm}
    {c : Char} (hk : k ∈ ks) (hc : c ∈ k.text.data)
    (h1 : hira.contains c = false) (h2 : kata.contains c = false) :
    ∀ acc, c ∈ addFormsChars hira kata acc ks := by
  induction ks with
  | nil => cases hk
  | cons k0 ks ih =>
      intro acc
      rcases List.mem_cons.mp hk with rfl | hk
      · show c ∈ List.foldl _ _ (k :: ks)
        rw [List.foldl_cons]
        exact addFormsChars_grows hira kata _ ks c (mem_addKanjiChars hc h1 h2 acc)
      · show c ∈ List.foldl _ _ (k0 :: ks)
        rw [List.foldl_cons]
        exact ih hk _

/-- `charsToSearch` always contains every character of the query string. -/
theorem query_mem_charsToSearch {query : String} {c : Char} (hc : c ∈ query.data)
    (strict : Bool) (entries : List JMDEntry) (hira kata : List Char) :
    c ∈ charsToSearch query strict entries hira kata := by
  unfold charsToSearch
  have hbase : c ∈ query.data.foldl odInsert [] := foldl_odInsert_mem query.data [] hc
  split
  · exact mem_foldl_of_mem
      (fun acc e y hy => addFormsChars_grows hira kata acc e.kanji_forms y hy)
      entries _ c hbase
  · exact hbase

/-- The entries fold collects every non-kana character of every kanji form
of every listed entry, whatever the starting accumulator. -/
theorem mem_entriesFold {hira kata : List Char} {es : List JMDEntry} {e : JMDEntry}
    {k : KanjiForm} {c : Char} (he : e ∈ es) (hk : k ∈ e.kanji_forms)
    (hc : c ∈ k.text.data) (h1 : hira.contains c = false) (h2 : kata.contains c = false) :
    ∀ acc, c ∈ es.foldl (addEntryChars hira kata) acc := by
  induction es with
  | nil => cases he
  | cons e0 es ih =>
      intro acc
      rcases List.mem_cons.mp he with rfl | he
      · rw [List.foldl_cons]
        exact mem_foldl_of_mem
          (fun acc e1 y hy => addFormsChars_grows hira kata acc e1.kanji_forms y hy)
          es _ c (mem_addFormsChars hk hc h1 h2 _)
      · rw [List.foldl_cons]
        exact ih he _

/-- In non-strict mode, every non-kana character of every kanji form of
every matched entry is a collected key. -/
theorem entry_mem_charsToSearch {query : String} {entries : List JMDEntry}
    {e : JMDEntry} {k : KanjiForm} {c : Char} (he : e ∈ entries)
    (hk : k ∈ e.kanji_forms) (hc : c ∈ k.text.data) {hira kata : List Char}
    (h1 : hira.contains c = false) (h2 : kata.contains c = false) :
    c ∈ charsToSearch query false entries hira kata := by
  unfold charsToSearch
  have hne : entries.isEmpty = false := by
    cases entries with
    | nil => cases he
    | cons a l => rfl
  simp only [hne, Bool.not_false, Bool.true_and, if_true]
  exact mem_entriesFold he hk hc h1 h2 _

/-- In strict mode the collected keys are exactly drawn from the query. -/
theorem charsToSearch_strict_subset {query : String} {entries : List JMDEntry}
    {hira kata : List Char} {x : Char}
    (hx : x ∈ charsToSearch query true entries hira kata) : x ∈ query.data := by
  unfold charsToSearch at hx
  simp only [Bool.not_true, Bool.false_and, if_neg] at hx
  rcases mem_foldl_odInsert query.data [] hx with h | h
  · cases h
  · exact h

/-! ## Freshness and distinctness of the collected character keys -/

/-- A `kanjiCharStep` preserves `Nodup`. -/
theorem kanjiCharStep_nodup (hira kata : List Char) (acc : List Char) (c : Char)
    (h : acc.Nodup) : (kanjiCharStep hira kata acc c).Nodup := by
  unfold kanjiCharStep
  split
  · exact odInsert_nodup acc c h
  · exact h

/-- A `kanjiCharStep` appends only fresh elements. -/
theorem kanjiCharStep_ext (hira kata : List Char) (acc : List Char) (c : Char) :
    ∃ e, kanjiCharStep hira kata acc c = acc ++ e ∧ ∀ x ∈ e, x ∉ acc := by
  unfold kanjiCharStep
  split
  · exact odInsert_ext acc c
  · exact ⟨[], by simp⟩

/-- `addKanjiChars` preserves `Nodup`. -/
theorem addKanjiChars_nodup (hira kata : List Char) (acc t : List Char) (h : acc.Nodup) :
    (addKanjiChars hira kata acc t).Nodup :=
  nodup_foldl (fun acc c hn => kanjiCharStep_nodup hira kata acc c hn) t acc h

/-- `addKanjiChars` appends only fresh elements. -/
theorem addKanjiChars_ext (hira kata : List Char) (acc t : List Char) :
    ∃ e, addKanjiChars hira kata acc t = acc ++ e ∧ ∀ x ∈ e, x ∉ acc :=
  foldl_eq_append_ext (fun acc c => kanjiCharStep_ext hira kata acc c) t acc

/-- `addFormsChars` preserves `Nodup`. -/
theorem addFormsChars_nodup (hira kata : List Char) (acc : List Char) (ks : List KanjiForm)
    (h : acc.Nodup) : (addFormsChars hira kata acc ks).Nodup :=
  nodup_foldl (fun acc k hn => addKanjiChars_nodup hira kata acc k.text.data hn) ks acc h

/-- `addFormsChars` appends only fresh elements. -/
theorem addFormsChars_ext (hira kata : List Char) (acc : List Char) (ks : List KanjiForm) :
    ∃ e, addFormsChars hira kata acc ks = acc ++ e ∧ ∀ x ∈ e, x ∉ acc := by
  unfold addFormsChars
  exact foldl_eq_append_ext (fun acc k => addKanjiChars_ext hira kata acc k.text.data) ks acc

/-- The collected key list never repeats a character. -/
theorem charsToSearch_nodup (query : String) (strict : Bool) (entries : List JMDEntry)
    (hira kata : List Char) : (charsToSearch query strict entries hira kata).Nodup := by
  unfold charsToSearch
  have hbase : (query.data.foldl odInsert []).Nodup :=
    nodup_foldl (fun acc c hn => odInsert_nodup acc c hn) query.data [] List.nodup_nil
  split
  · exact nodup_foldl
      (fun acc e hn => addFormsChars_nodup hira kata acc e.kanji_forms hn)
      entries _ hbase
  · exact hbase

/-- The collected key list is the deduplicated query characters followed by
fresh characters discovered from the matched entries. -/
theorem charsToSearch_decomp (query : String) (strict : Bool) (entries : List JMDEntry)
    (hira kata : List Char) :
    ∃ ext, charsToSearch query strict entries hira kata =
        (query.data.foldl odInsert []) ++ ext ∧
      ∀ x ∈ ext, x ∉ (query.data.foldl odInsert []) := by
  unfold charsToSearch
  split
  · exact foldl_eq_append_ext
      (fun acc e => addFormsChars_ext hira kata acc e.kanji_forms) entries _
  · exact ⟨[], by simp⟩

/-- Resolving a duplicate-free key list through a store that returns a
record keyed by the looked-up literal yields records with pairwise distinct
literals. -/
theorem filterMap_store_literals_nodup (store : Char → Option Character)
    (hstore : ∀ c r, store c = some r → r.literal = String.mk [c]) :
    ∀ keys : List Char, keys.Nodup →
      ((keys.filterMap store).map Character.literal).Nodup := by
  intro keys
  induction keys with
  | nil => intro _; simp
  | cons k ks ih =>
      intro hnd
      have hk : k ∉ ks := (List.nodup_cons.mp hnd).1
      have hks : ks.Nodup := (List.nodup_cons.mp hnd).2
      rw [List.filterMap_cons]
      cases hsk : store k with
      | none => exact ih hks
      | some r =>
          rw [List.map_cons, List.nodup_cons]
          refine ⟨?_, ih hks⟩
          intro hmem
          obtain ⟨r', hr', hlit⟩ := List.mem_map.mp hmem
          obtain ⟨c', hc', hsc'⟩ := List.mem_filterMap.mp hr'
          have h1 : r'.literal = String.mk [c'] := hstore c' r' hsc'
          have h2 : r.literal = String.mk [k] := hstore k r hsk
          have : c' = k := by
            have := h1 ▸ h2 ▸ hlit
            injection this with h3
            exact (List.cons.injEq _ _ _ _ ▸ h3).1
          exact hk (this ▸ hc')

/-! ## Inverting a successful lookup -/

/-- What a successful `lookup` returns, component by component. -/
theorem lookup_ok_elim {db : DB} {hasKD2 hasJmne : Bool}
    {store : Char → Option Character} {hira kata : List Char}
    {neSearch : String → List JMDEntry} {query : String}
    {strict lc lne : Bool} {pos : List String} {res : LookupResult}
    (h : lookup true db hasKD2 hasJmne store hira kata neSearch query strict lc lne pos =
      .ok res) :
    res.entries = search db query ∧
    res.chars = (if lc && hasKD2 then
      lookupChars query strict (search db query) store hira kata else []) ∧
    res.names = (if lne && hasJmne then neSearch query else []) := by
  by_cases hg : ((query == "" || query == "%") && pos.isEmpty) = true
  · simp [lookup, hg] at h
  · simp only [lookup, Bool.not_true, Bool.false_eq_true, if_false,
      hg, lookupChars] at h
    rw [Except.ok.injEq] at h
    subst h
    exact ⟨rfl, rfl, rfl⟩

/-! ## Error propagation through the parsers' child folds -/

/-- If some element of the list makes the step fail whatever the
accumulator, the whole fold fails. -/
theorem foldlM_error_of_mem {α β : Type} (f : β → α → Except String β) (l : List α)
    (x : α) (hx : x ∈ l) (hf : ∀ acc, ∃ m, f acc x = .error m) :
    ∀ acc, ∃ m, l.foldlM f acc = .error m := by
  induction l with
  | nil => cases hx
  | cons y ys ih =>
      intro acc
      rw [List.foldlM_cons]
      rcases List.mem_cons.mp hx with rfl | hx
      · obtain ⟨m, hm⟩ := hf acc
        refine ⟨m, ?_⟩
        rw [hm]
        rfl
      · cases hy : f acc y with
        | error e => exact ⟨e, rfl⟩
        | ok a =>
            obtain ⟨m, hm⟩ := ih hx a
            exact ⟨m, hm⟩

/-- An unknown child tag makes the entry dispatch raise, whatever the entry
built so far. -/
theorem entryChildStep_unknown (child : XNode) (h : isKnownEntryTag child.tag = false)
    (acc : JMDEntry) :
    entryChildStep acc child = .error ("Invalid tag: " ++ child.tag) := by
  simp only [isKnownEntryTag, Bool.or_eq_false_eq_eq_false_and_eq_false] at h
  obtain ⟨⟨⟨⟨⟨h1, h2⟩, h3⟩, h4⟩, h5⟩, h6⟩ := h
  simp [entryChildStep, h1, h2, h3, h4, h5, h6]

/-- An unknown child tag leaves the character dispatch unchanged (the
warning-and-skip arm). -/
theorem charChildStep_unknown (child : XNode) (h : isKnownCharTag child.tag = false)
    (acc : Character) : charChildStep acc child = .ok acc := by
  simp only [isKnownCharTag, Bool.or_eq_false_eq_eq_false_and_eq_false] at h
  obtain ⟨⟨⟨⟨⟨⟨h1, h2⟩, h3⟩, h4⟩, h5⟩, h6⟩, h7⟩ := h
  simp [charChildStep, h1, h2, h3, h4, h5, h6, h7]

/-- Dropping the unknown-tag children does not change `parse_char`'s fold. -/
theorem foldlM_char_filter_known (cs : List XNode) :
    ∀ acc, (cs.filter knownCharChild).foldlM charChildStep acc =
      cs.foldlM charChildStep acc := by
  induction cs with
  | nil => intro acc; rfl
  | cons c cs ih =>
      intro acc
      by_cases hk : knownCharChild c = true
      · rw [List.filter_cons_of_pos hk, List.foldlM_cons, List.foldlM_cons]
        cases hc : charChildStep acc c with
        | error e => rfl
        | ok a => exact ih a
      · have hk' : knownCharChild c = false := by
          cases hkk : knownCharChild c
          · rfl
          · exact absurd hkk hk
        rw [List.filter_cons_of_neg (by simp [hk']), List.foldlM_cons,
          charChildStep_unknown c hk' acc]
        exact ih acc

/-! ## Association lookup over the parsed kradfile lines -/

/-- First binding of a key in an association list (Python dict lookup once
keys are unique). -/
def assocFind (c : String) : List (String × List String) → Option (List String)
  | [] => none
  | p :: es => if c = p.1 then some p.2 else assocFind c es

/-- A key absent from the key list has no binding. -/
theorem assocFind_eq_none {c : String} :
    ∀ {es : List (String × List String)}, c ∉ es.map Prod.fst → assocFind c es = none := by
  intro es
  induction es with
  | nil => intro _; rfl
  | cons p es ih =>
      intro h
      have hc : c ≠ p.1 := by
        intro hceq
        exact h (by simp [hceq])
      have h' : c ∉ es.map Prod.fst := by
        intro hmem
        exact h (by simp [hmem])
      simp [assocFind, hc, ih h']

/-- A found binding is a member. -/
theorem assocFind_mem {c : String} {v : List String} :
    ∀ {es : List (String × List String)}, assocFind c es = some v → (c, v) ∈ es := by
  intro es
  induction es with
  | nil => intro h; cases h
  | cons p es ih =>
      intro h
      by_cases hc : c = p.1
      · simp only [assocFind, if_pos hc] at h
        injection h with h
        subst hc
        simp [← h]
      · simp only [assocFind, if_neg hc] at h
        exact List.mem_cons_of_mem p (ih h)

/-- Under duplicate-free keys, every member is found. -/
theorem assocFind_of_mem_nodup {es : List (String × List String)}
    (hnd : (es.map Prod.fst).Nodup) {p : String × List String} (hp : p ∈ es) :
    assocFind p.1 es = some p.2 := by
  induction es with
  | nil => cases hp
  | cons q es ih =>
      have hq : q.1 ∉ es.map Prod.fst := (List.nodup_cons.mp hnd).1
      have hnd' := (List.nodup_cons.mp hnd).2
      rcases List.mem_cons.mp hp with rfl | hp
      · simp [assocFind]
      · have hne : p.1 ≠ q.1 := by
          intro he
          exact hq (he ▸ List.mem_map.mpr ⟨p, hp, rfl⟩)
        simp [assocFind, hne, ih hnd' hp]

/-! ## Characterizing the two component-index maps -/

/-- `x ∈ setAdd l y ↔ x ∈ l ∨ x = y`. -/
theorem mem_setAdd {l : List String} {x y : String} :
    x ∈ setAdd l y ↔ x ∈ l ∨ x = y := by
  unfold setAdd
  split
  · rename_i h
    constructor
    · exact Or.inl
    · rintro (hx | rfl) <;> assumption
  · simp

/-- The forward (`krad`) map after the fold: the unique binding of the key
among the data lines, else whatever the accumulator held. -/
theorem krad_foldl_fst : ∀ (es : List (String × List String)),
    (es.map Prod.fst).Nodup → ∀ (acc : KRadMaps) (c : String),
    (es.foldl kradStep acc).1 c =
      (match assocFind c es with
       | some v => some v
       | none => acc.1 c) := by
  intro es
  induction es with
  | nil => intro _ acc c; rfl
  | cons p es ih =>
      intro hnd acc c
      have hp : p.1 ∉ es.map Prod.fst := (List.nodup_cons.mp hnd).1
      have hnd' := (List.nodup_cons.mp hnd).2
      rw [List.foldl_cons, ih hnd' (kradStep acc p) c]
      by_cases hc : c = p.1
      · have hnone : assocFind c es = none := by
          rw [hc]; exact assocFind_eq_none hp
        rw [hnone]
        simp [assocFind, hc, kradStep]
      · have hfind : assocFind c (p :: es) = assocFind c es := by
          simp [assocFind, hc]
        rw [hfind]
        cases assocFind c es with
        | some v => rfl
        | none => simp [kradStep, hc]

/-- The inverse (`radk`) map after the fold: a character is in a
component's set iff it was there initially or some data line for that
character lists the component. -/
theorem radk_foldl_mem : ∀ (es : List (String × List String)) (acc : KRadMaps)
    (x r : String),
    x ∈ (es.foldl kradStep acc).2 r ↔
      x ∈ acc.2 r ∨ ∃ p, p ∈ es ∧ p.1 = x ∧ r ∈ p.2 := by
  intro es
  induction es with
  | nil => intro acc x r; simp
  | cons p es ih =>
      intro acc x r
      rw [List.foldl_cons, ih]
      constructor
      · rintro (h | ⟨q, hq, hfst, hr⟩)
        · by_cases hrp : r ∈ p.2
          · simp only [kradStep, if_pos hrp] at h
            rcases mem_setAdd.mp h with h | rfl
            · exact Or.inl h
            · exact Or.inr ⟨p, List.mem_cons_self p es, rfl, hrp⟩
          · simp only [kradStep, if_neg hrp] at h
            exact Or.inl h
        · exact Or.inr ⟨q, List.mem_cons_of_mem p hq, hfst, hr⟩
      · rintro (h | ⟨q, hq, hfst, hr⟩)
        · left
          by_cases hrp : r ∈ p.2
          · simp only [kradStep, if_pos hrp]
            exact mem_setAdd.mpr (Or.inl h)
          · simpa only [kradStep, if_neg hrp] using h
        · rcases List.mem_cons.mp hq with rfl | hq
          · left
            simp only [kradStep, if_pos hr]
            exact mem_setAdd.mpr (Or.inr hfst.symm)
          · exact Or.inr ⟨q, hq, hfst, hr⟩

/-! ## The claims -/

/-- C1: the insert/read round trip of the relational mapper is claimed to
reproduce every public field.  It does not: `get_entry` rebuilds the
etymology list from the raw `Etym` database rows instead of their text
column, so an entry with a non-empty `info.etym` list comes back different.
This theorem evaluates the code at such an entry: the round trip changes
the entry, and the read-back `info.etym` holds a row object in place of the
original string. -/
theorem c1_roundtrip_drops_etym_strings :
    (insertEntry entryEtym emptyDB).map (fun db => getEntry db 7) ≠ some entryEtym ∧
    (insertEntry entryEtym emptyDB).map (fun db => (getEntry db 7).info) =
      some (some ⟨[], [], [EtymVal.row ⟨7, "from Chinese"⟩], []⟩) :=
  ⟨by decide, by decide⟩

/-- C2: `%` and `_` behave as claimed (any run / exactly one character),
but a query containing `?` is claimed to match exactly one character and
does not: `?` is not in the wildcard trigger set `{_, @, %}` of
`JMDictSQLite.search`, so `"お?げ"` is matched literally and finds
nothing, although the store holds the 3-character form `おかげ`. -/
theorem c2_question_mark_is_not_a_wildcard :
    search dbOkage "お%げ" = [getEntry dbOkage 5] ∧
    search dbOkage "お_げ" = [getEntry dbOkage 5] ∧
    (getEntry dbOkage 5).kana_forms.map KanaForm.text = ["おかげ"] ∧
    search dbOkage "お?げ" = [] := by
  refine ⟨by decide, by decide, by decide, by decide⟩

/-- C3: `Jamdict.lookup` raises the precondition error whenever the query
is empty or the single wildcard `%` and no pos filter is supplied, and the
same calls do not raise when a non-empty pos filter is supplied. -/
theorem c3_empty_query_precondition
    (db : DB) (hasKD2 hasJmne : Bool) (store : Char → Option Character)
    (hira kata : List Char) (neSearch : String → List JMDEntry)
    (strict lc lne : Bool) (query : String) (pos : List String)
    (hq : query = "" ∨ query = "%") :
    (pos = [] →
      lookup true db hasKD2 hasJmne store hira kata neSearch query strict lc lne pos =
        .error .emptyQuery) ∧
    (pos ≠ [] →
      ∃ res,
        lookup true db hasKD2 hasJmne store hira kata neSearch query strict lc lne pos =
          .ok res) := by
  constructor
  · rintro rfl
    rcases hq with rfl | rfl <;> rfl
  · intro hpos
    have hne : pos.isEmpty = false := by
      cases pos with
      | nil => exact absurd rfl hpos
      | cons a l => rfl
    have hcond : ((query == "" || query == "%") && pos.isEmpty) = false := by
      rw [hne, Bool.and_false]
    refine ⟨⟨search db query,
      if lc && hasKD2 then lookupChars query strict (search db query) store hira kata
      else [],
      if lne && hasJmne then neSearch query else []⟩, ?_⟩
    unfold lookup
    rw [hcond]
    rfl

/-- C3 witness: `lookup("")` with no filter raises the precondition error;
`lookup("%", pos=["x"])` does not raise. -/
theorem c3_empty_query_precondition_witness :
    lookup true emptyDB false false (fun _ => none) [] [] (fun _ => [])
      "" false false false [] = .error .emptyQuery ∧
    (∃ res, lookup true emptyDB false false (fun _ => none) [] [] (fun _ => [])
      "%" false false false ["x"] = .ok res) :=
  ⟨(c3_empty_query_precondition emptyDB false false (fun _ => none) [] [] (fun _ => [])
      false false false "" [] (Or.inl rfl)).1 rfl,
   (c3_empty_query_precondition emptyDB false false (fun _ => none) [] [] (fun _ => [])
      false false false "%" ["x"] (Or.inr rfl)).2 (by simp)⟩

/-- C4: the pos filter is claimed to restrict the result set with any-of
semantics.  It does not: `JMDictSQLite.search` absorbs `pos=...` into
`**kwargs` and never reads it.  Evaluated at the failing input of the
repository's own test (`おみやげ`, tagged only `noun (common)
(futsuumeishi)`, filtered by `intransitive verb`), the entry is returned
anyway, identically to the unfiltered call. -/
theorem c4_pos_filter_is_ignored :
    (getEntry dbOmiyage 1002490).senses.map Sense.pos =
      [["noun (common) (futsuumeishi)"]] ∧
    lookup true dbOmiyage false false (fun _ => none) [] [] (fun _ => [])
      "おみやげ" false false false ["intransitive verb"] =
      .ok ⟨[getEntry dbOmiyage 1002490], [], []⟩ ∧
    lookup true dbOmiyage false false (fun _ => none) [] [] (fun _ => [])
      "おみやげ" false false false [] =
      .ok ⟨[getEntry dbOmiyage 1002490], [], []⟩ :=
  ⟨by decide, rfl, rfl⟩

/-- C6 counterexample: in the in-memory XML backend a query of the exact
form `id#` + digits does not override text matching.  With an entry whose
kana form is the literal text `id#1` (idseq 100) and an entry with idseq 1,
`lookup("id#1")` returns the text-matched entry, not the entry with
identifier 1. -/
theorem c6_text_match_shadows_id_lookup :
    xmlLookup xsIdClash "id#1" = [entryTextIdHash] ∧
    entryTextIdHash.idseq = 100 ∧ entryIdOne.idseq = 1 ∧
    xmlLookup xsIdClash "id#1" ≠ [entryIdOne] :=
  ⟨by decide, rfl, rfl, by decide⟩

/-- C6 (amended): in the relational backend an `id#`-digits query replaces
the text predicate by identifier equality, overriding all text matching;
in the in-memory XML backend identifier resolution applies only when no
kana/kanji text equals the query literally — an exact text match takes
precedence over `id#` resolution. -/
theorem c6_id_lookup_semantics :
    (∀ (db : DB) (q : String) (n : Nat), idQueryNum q = some n →
      search db q = (db.entry.filter (fun i => i == n)).map (getEntry db)) ∧
    (∀ (xs : List JMDEntry) (q : String), (textMatches xs q).isEmpty = false →
      xmlLookup xs q = textMatches xs q) ∧
    (∀ (xs : List JMDEntry) (q : String) (n : Nat), (textMatches xs q).isEmpty = true →
      pyStartsWith q "id#" = true → pyNat? (String.mk (q.data.drop 3)) = some n →
      xmlLookup xs q =
        (match seqMap xs n with
         | some e => [e]
         | none => [])) := by
  refine ⟨?_, ?_, ?_⟩
  · intro db q n h
    simp [search, searchIds, h]
  · intro xs q h
    simp [xmlLookup, h]
  · intro xs q n h1 h2 h3
    simp [xmlLookup, h1, h2, h3]

/-- C6 witness: a concrete `id#` search in the relational store, a concrete
shadowed XML lookup, and a concrete successful XML id lookup. -/
theorem c6_id_lookup_semantics_witness :
    search dbOkage "id#5" = [getEntry dbOkage 5] ∧
    xmlLookup xsIdClash "id#1" = textMatches xsIdClash "id#1" ∧
    xmlLookup [entryIdOne] "id#1" = [entryIdOne] := by
  refine ⟨?_, ?_, ?_⟩
  · rw [c6_id_lookup_semantics.1 dbOkage "id#5" 5 (by decide)]
    decide
  · exact c6_id_lookup_semantics.2.1 xsIdClash "id#1" (by decide)
  · rw [c6_id_lookup_semantics.2.2 [entryIdOne] "id#1" 1 (by decide) (by decide) (by decide)]
    decide

/-- C8 counterexample: the character-database parser does not raise on an
unrecognized child tag; it returns a character record as if the unknown
child were absent (the claim asserts a fatal parse error for both
parsers). -/
theorem c8_char_parser_does_not_raise :
    parse_char charElemBogus = .ok emptyCharacter := rfl

/-- C8 (amended): the word/name-entry parser raises a fatal parse error on
a record containing a child element with an unrecognized tag, while the
character-database parser logs a warning and skips the unknown child —
parsing a character element is the same as parsing it with its unknown
children removed. -/
theorem c8_unknown_tag_handling :
    (∀ (etag : XNode) (child : XNode), child ∈ etag.children →
      isKnownEntryTag child.tag = false →
      ∃ msg, parse_entry_tag etag = .error msg) ∧
    (∀ (tag : String) (attribs : List (String × String)) (text : String)
      (children : List XNode),
      parse_char (.mk tag attribs text (children.filter knownCharChild)) =
        parse_char (.mk tag attribs text children)) := by
  constructor
  · intro etag child hmem hunk
    exact foldlM_error_of_mem entryChildStep etag.children child hmem
      (fun acc => ⟨_, entryChildStep_unknown child hunk acc⟩) emptyJMDEntry
  · intro tag attribs text children
    exact foldlM_char_filter_known children emptyCharacter

/-- C8 witness: a concrete entry element with a bogus child is rejected,
and a concrete character element parses the same with its bogus child
filtered away. -/
theorem c8_unknown_tag_handling_witness :
    (∃ msg, parse_entry_tag (.mk "entry" [] "" [.mk "bogus" [] "" []]) = .error msg) ∧
    parse_char (.mk "character" [] ""
        (([(.mk "bogus" [] "" [] : XNode)]).filter knownCharChild)) =
      parse_char (.mk "character" [] "" [.mk "bogus" [] "" []]) :=
  ⟨c8_unknown_tag_handling.1 (.mk "entry" [] "" [.mk "bogus" [] "" []])
      (.mk "bogus" [] "" []) (List.mem_singleton.mpr rfl) (by decide),
   c8_unknown_tag_handling.2 "character" [] "" [.mk "bogus" [] "" []]⟩

/-- C9: a gloss whose source element omits the language attribute is
claimed to default to `'eng'` in both parsers.  The name-dictionary
translation parser does default to `'eng'`, but `parse_sensegloss` calls
`get_attrib` without a default, so the word-sense gloss gets the empty
string instead of the documented 3-letter default. -/
theorem c9_gloss_lang_default_mismatch :
    parse_sensegloss (.mk "gloss" [] "shrine" []) emptySense =
      { emptySense with gloss := [⟨"", "", "shrine"⟩] } ∧
    parse_ne_translation (.mk "trans" [] "" [.mk "trans_det" [] "Shenron" []])
        emptyJMDEntry =
      .ok { emptyJMDEntry with
        senses := [{ emptySense with gloss := [⟨"eng", "", "Shenron"⟩] }] } :=
  ⟨by decide, rfl⟩

/-- C5: with character lookup enabled, a non-strict lookup's `chars` list
includes the character record of every non-kana character of every kanji
form of every matched entry, in addition to the records of the query's own
characters; a strict lookup's `chars` list contains only records resolved
from characters literally present in the query string. -/
theorem c5_char_autodiscovery
    (db : DB) (hasJmne : Bool) (store : Char → Option Character)
    (hira kata : List Char) (neSearch : String → List JMDEntry)
    (lne : Bool) (query : String) (pos : List String) (res res' : LookupResult)
    (hok : lookup true db true hasJmne store hira kata neSearch query
      false true lne pos = .ok res)
    (hok' : lookup true db true hasJmne store hira kata neSearch query
      true true lne pos = .ok res') :
    (∀ e ∈ res.entries, ∀ k ∈ e.kanji_forms, ∀ c ∈ k.text.data,
      hira.contains c = false → kata.contains c = false →
      ∀ r, store c = some r → r ∈ res.chars) ∧
    (∀ c ∈ query.data, ∀ r, store c = some r → r ∈ res.chars) ∧
    (∀ r ∈ res'.chars, ∃ c, c ∈ query.data ∧ store c = some r) := by
  obtain ⟨hent, hchars, -⟩ := lookup_ok_elim hok
  obtain ⟨-, hchars', -⟩ := lookup_ok_elim hok'
  have hc2 : res.chars = lookupChars query false (search db query) store hira kata := hchars
  have hc2' : res'.chars = lookupChars query true (search db query) store hira kata := hchars'
  refine ⟨?_, ?_, ?_⟩
  · intro e he k hk c hc h1 h2 r hr
    have he' : e ∈ search db query := hent ▸ he
    rw [hc2]
    exact List.mem_filterMap.mpr ⟨c, entry_mem_charsToSearch he' hk hc h1 h2, hr⟩
  · intro c hc r hr
    rw [hc2]
    exact List.mem_filterMap.mpr
      ⟨c, query_mem_charsToSearch hc false (search db query) hira kata, hr⟩
  · intro r hr
    rw [hc2'] at hr
    obtain ⟨c, hkey, hsc⟩ := List.mem_filterMap.mp hr
    exact ⟨c, charsToSearch_strict_subset hkey, hsc⟩

/-- A two-kanji character store: records for `土` and `産` only. -/
def storeTwo : Char → Option Character := fun c =>
  if c = '土' then some { emptyCharacter with literal := "土" }
  else if c = '産' then some { emptyCharacter with literal := "産" }
  else none

/-- The hiragana sample relevant to the `おみやげ` fixture. -/
def hiraSample : List Char := ['お', 'み', 'や', 'げ', 'か']

/-- A store holding entry 1 with kana `おみやげ` and kanji `お土産`. -/
def dbMiyageKanji : DB :=
  { emptyDB with
    entry := [1],
    kana := [⟨0, 1, "おみやげ", false⟩],
    kanji := [⟨0, 1, "お土産"⟩] }

/-- The result of the non-strict fixture lookup. -/
def resMiyage : LookupResult :=
  ⟨search dbMiyageKanji "おみやげ",
   lookupChars "おみやげ" false (search dbMiyageKanji "おみやげ") storeTwo hiraSample [],
   []⟩

/-- The result of the strict fixture lookup. -/
def resMiyageStrict : LookupResult :=
  ⟨search dbMiyageKanji "おみやげ",
   lookupChars "おみやげ" true (search dbMiyageKanji "おみやげ") storeTwo hiraSample [],
   []⟩

/-- C5 witness: looking up the kana reading `おみやげ` non-strictly
recovers the records of both kanji `土` and `産` of the matched entry's
written form `お土産`; the strict lookup's records all come from query
characters. -/
theorem c5_char_autodiscovery_witness :
    { emptyCharacter with literal := "土" } ∈ resMiyage.chars ∧
    { emptyCharacter with literal := "産" } ∈ resMiyage.chars ∧
    (∀ r ∈ resMiyageStrict.chars, ∃ c, c ∈ "おみやげ".data ∧ storeTwo c = some r) := by
  have h := c5_char_autodiscovery dbMiyageKanji false storeTwo hiraSample []
    (fun _ => []) false "おみやげ" [] resMiyage resMiyageStrict rfl rfl
  refine ⟨?_, ?_, h.2.2⟩
  · exact h.1 (getEntry dbMiyageKanji 1) (by decide) ⟨"お土産", [], []⟩ (by decide)
      '土' (by decide) (by decide) (by decide) _ (by decide)
  · exact h.1 (getEntry dbMiyageKanji 1) (by decide) ⟨"お土産", [], []⟩ (by decide)
      '産' (by decide) (by decide) (by decide) _ (by decide)

/-- `storeTwo` returns records keyed by the looked-up literal. -/
theorem storeTwo_literal : ∀ c r, storeTwo c = some r → r.literal = String.mk [c] := by
  intro c r h
  unfold storeTwo at h
  split_ifs at h with h1 h2
  · subst h1; cases h; rfl
  · subst h2; cases h; rfl

/-- C10: with character lookup enabled, the `chars` list of a lookup holds
at most one record per distinct literal (duplicate occurrences in the query
or across matched entries collapse), and records resolved from query
characters precede records resolved from characters discovered in the
matched entries' kanji forms. -/
theorem c10_chars_unique_query_first
    (db : DB) (hasJmne : Bool) (store : Char → Option Character)
    (hira kata : List Char) (neSearch : String → List JMDEntry)
    (strict lne : Bool) (query : String) (pos : List String) (res : LookupResult)
    (hok : lookup true db true hasJmne store hira kata neSearch query
      strict true lne pos = .ok res)
    (hstore : ∀ c r, store c = some r → r.literal = String.mk [c]) :
    ((res.chars.map Character.literal).Nodup) ∧
    (∃ pre post, res.chars = pre ++ post ∧
      (∀ r ∈ pre, ∃ c, c ∈ query.data ∧ store c = some r) ∧
      (∀ r ∈ post, ∃ c, c ∉ query.data ∧ store c = some r)) := by
  obtain ⟨-, hchars, -⟩ := lookup_ok_elim hok
  have hc2 : res.chars = lookupChars query strict (search db query) store hira kata := hchars
  constructor
  · rw [hc2]
    exact filterMap_store_literals_nodup store hstore _
      (charsToSearch_nodup query strict (search db query) hira kata)
  · obtain ⟨ext, hdecomp, hfresh⟩ :=
      charsToSearch_decomp query strict (search db query) hira kata
    refine ⟨(query.data.foldl odInsert []).filterMap store, ext.filterMap store, ?_, ?_, ?_⟩
    · rw [hc2]
      unfold lookupChars
      rw [hdecomp, List.filterMap_append]
    · intro r hr
      obtain ⟨c, hc, hsc⟩ := List.mem_filterMap.mp hr
      rcases mem_foldl_odInsert query.data [] hc with h | h
      · cases h
      · exact ⟨c, h, hsc⟩
    · intro r hr
      obtain ⟨c, hc, hsc⟩ := List.mem_filterMap.mp hr
      refine ⟨c, ?_, hsc⟩
      intro hq
      exact hfresh c hc (foldl_odInsert_mem query.data [] hq)

/-- C10 witness: the fixture lookup's record literals are pairwise
distinct and split into query-derived then discovered records. -/
theorem c10_chars_unique_query_first_witness :
    ((resMiyage.chars.map Character.literal).Nodup) ∧
    (∃ pre post, resMiyage.chars = pre ++ post ∧
      (∀ r ∈ pre, ∃ c, c ∈ "おみやげ".data ∧ storeTwo c = some r) ∧
      (∀ r ∈ post, ∃ c, c ∉ "おみやげ".data ∧ storeTwo c = some r)) :=
  c10_chars_unique_query_first dbMiyageKanji false storeTwo hiraSample []
    (fun _ => []) false false "おみやげ" [] resMiyage rfl storeTwo_literal

/-- C7: after the component index is built from resource lines whose data
lines name pairwise distinct characters (as the kradfile does), the radk
map is exactly the transpose of the krad map: membership in
`components_of` and membership in `characters_with` coincide. -/
theorem c7_component_index_transpose (lines : List String)
    (hnd : ((lines.filterMap parse_krad_line).map Prod.fst).Nodup) :
    (∀ c r, r ∈ componentsOf (buildKradMaps lines) c →
      c ∈ charactersWith (buildKradMaps lines) r) ∧
    (∀ c r, c ∈ charactersWith (buildKradMaps lines) r →
      r ∈ componentsOf (buildKradMaps lines) c) := by
  constructor
  · intro c r hr
    unfold componentsOf buildKradMaps at hr
    rw [krad_foldl_fst (lines.filterMap parse_krad_line) hnd] at hr
    cases hes : assocFind c (lines.filterMap parse_krad_line) with
    | none =>
        rw [hes] at hr
        simp at hr
    | some v =>
        rw [hes] at hr
        have hv : r ∈ v := by simpa using hr
        unfold charactersWith buildKradMaps
        rw [radk_foldl_mem]
        exact Or.inr ⟨(c, v), assocFind_mem hes, rfl, hv⟩
  · intro c r hc
    unfold charactersWith buildKradMaps at hc
    rw [radk_foldl_mem] at hc
    rcases hc with h | ⟨p, hp, hfst, hr⟩
    · cases h
    · unfold componentsOf buildKradMaps
      rw [krad_foldl_fst (lines.filterMap parse_krad_line) hnd]
      have hfind := assocFind_of_mem_nodup hnd hp
      rw [hfst] at hfind
      rw [hfind]
      simpa using hr

/-- Resource lines exercising the component index, kradfile format. -/
def kradLinesSample : List String := ["# comment", "雲 : 一 雨 二 厶", "鼎 : 目 厶"]

/-- C7 witness: the sample resource has distinct characters, and both
directions of the transpose hold on it concretely. -/
theorem c7_component_index_transpose_witness :
    (((kradLinesSample.filterMap parse_krad_line).map Prod.fst).Nodup) ∧
    "雲" ∈ charactersWith (buildKradMaps kradLinesSample) "雨" ∧
    "厶" ∈ componentsOf (buildKradMaps kradLinesSample) "鼎" := by
  have hnd : ((kradLinesSample.filterMap parse_krad_line).map Prod.fst).Nodup := by decide
  refine ⟨hnd, ?_, ?_⟩
  · exact (c7_component_index_transpose kradLinesSample hnd).1 "雲" "雨" (by decide)
  · exact (c7_component_index_transpose kradLinesSample hnd).2 "鼎" "厶" (by decide)

/- General insert/get round-trip development: a positive complement to the
etym divergence, proving the mapper is lossless on everything it persists. -/

/-- Selecting by a key that records the enumeration index recovers exactly one block of a flatMap over an enumerated list. -/
theorem filter_flatMap_enumFrom {α γ β : Type} (key : β → Nat) (mk : Nat → γ → β)
    (items : α → List γ) (hkey : ∀ j x, key (mk j x) = j) :
    ∀ (ks : List α) (n i : Nat) (k : α), (i, k) ∈ List.enumFrom n ks →
      ((List.enumFrom n ks).flatMap
          (fun p => (items p.2).map (fun x => mk p.1 x))).filter
        (fun r => key r == i) = (items k).map (fun x => mk i x) := by
  intro ks
  induction ks with
  | nil => intro n i k h; cases h
  | cons k0 ks ih =>
      intro n i k h
      rw [List.enumFrom_cons] at h ⊢
      rw [List.flatMap_cons, List.filter_append]
      rcases List.mem_cons.mp h with heq | hmem
      · injection heq with h1 h2
        subst h1
        subst h2
        have hblock : ((items k).map (fun x => mk i x)).filter (fun r => key r == i) =
            (items k).map (fun x => mk i x) :=
          List.filter_eq_self.mpr (by
            intro r hr
            obtain ⟨x, hx, rfl⟩ := List.mem_map.mp hr
            simp [hkey])
        have hrest : ((List.enumFrom (i + 1) ks).flatMap
            (fun p => (items p.2).map (fun x => mk p.1 x))).filter
              (fun r => key r == i) = [] := by
          rw [List.filter_eq_nil_iff]
          intro r hr
          obtain ⟨p, hp, hrp⟩ := List.mem_flatMap.mp hr
          obtain ⟨x, hx, rfl⟩ := List.mem_map.mp hrp
          have hge : i + 1 ≤ p.1 := (List.mem_enumFrom hp).1
          simp only [hkey, beq_iff_eq]
          omega
        rw [hblock, hrest, List.append_nil]
      · have hge : n + 1 ≤ i := (List.mem_enumFrom hmem).1
        have hblock : ((items k0).map (fun x => mk n x)).filter (fun r => key r == i) = [] := by
          rw [List.filter_eq_nil_iff]
          intro r hr
          obtain ⟨x, hx, rfl⟩ := List.mem_map.mp hr
          simp only [hkey, beq_iff_eq]
          omega
        rw [hblock, List.nil_append]
        exact ih (n + 1) i k hmem

/-- Closed form of the kanji-form insertion fold: the kanji, kji and kjp tables grow by the enumerated rows of the inserted forms. -/
theorem kanjiFold_eq (idseq : Nat) : ∀ (ks : List KanjiForm) (db : DB),
    ks.foldl (fun db kj => insertKanjiForm db idseq kj) db =
      { db with
        kanji := db.kanji ++ (List.enumFrom db.kanji.length ks).map
          (fun p => (⟨p.1, idseq, p.2.text⟩ : KanjiRow)),
        kji := db.kji ++ (List.enumFrom db.kanji.length ks).flatMap
          (fun p => p.2.info.map (fun t => (⟨p.1, t⟩ : KidRow))),
        kjp := db.kjp ++ (List.enumFrom db.kanji.length ks).flatMap
          (fun p => p.2.pri.map (fun t => (⟨p.1, t⟩ : KidRow))) } := by
  intro ks
  induction ks with
  | nil => intro db; simp
  | cons kj ks ih =>
      intro db
      rw [List.foldl_cons, ih]
      simp [insertKanjiForm, List.enumFrom_cons, List.flatMap_cons, List.append_assoc,
        Nat.add_comm]



/-- Closed form of the kana-form insertion fold: the kana, kni, knp and knr tables grow by the enumerated rows of the inserted forms. -/
theorem kanaFold_eq (idseq : Nat) : ∀ (kns : List KanaForm) (db : DB),
    kns.foldl (fun db kn => insertKanaForm db idseq kn) db =
      { db with
        kana := db.kana ++ (List.enumFrom db.kana.length kns).map
          (fun p => (⟨p.1, idseq, p.2.text, p.2.nokanji⟩ : KanaRow)),
        kni := db.kni ++ (List.enumFrom db.kana.length kns).flatMap
          (fun p => p.2.info.map (fun t => (⟨p.1, t⟩ : KidRow))),
        knp := db.knp ++ (List.enumFrom db.kana.length kns).flatMap
          (fun p => p.2.pri.map (fun t => (⟨p.1, t⟩ : KidRow))),
        knr := db.knr ++ (List.enumFrom db.kana.length kns).flatMap
          (fun p => p.2.restr.map (fun t => (⟨p.1, t⟩ : KidRow))) } := by
  intro kns
  induction kns with
  | nil => intro db; simp
  | cons kn kns ih =>
      intro db
      rw [List.foldl_cons, ih]
      simp [insertKanaForm, List.enumFrom_cons, List.flatMap_cons, List.append_assoc,
        Nat.add_comm]

/-- Closed form of the sense insertion fold: the sense table and its twelve child tables grow by the enumerated rows of the inserted senses. -/
theorem senseFold_eq (idseq : Nat) : ∀ (ss : List Sense) (db : DB),
    ss.foldl (fun db s => insertSense db idseq s) db =
      { db with
        sense := db.sense ++ (List.enumFrom db.sense.length ss).map
          (fun p => (⟨p.1, idseq⟩ : SenseRow)),
        stagk := db.stagk ++ (List.enumFrom db.sense.length ss).flatMap
          (fun p => p.2.stagk.map (fun t => (⟨p.1, t⟩ : SidRow))),
        stagr := db.stagr ++ (List.enumFrom db.sense.length ss).flatMap
          (fun p => p.2.stagr.map (fun t => (⟨p.1, t⟩ : SidRow))),
        pos := db.pos ++ (List.enumFrom db.sense.length ss).flatMap
          (fun p => p.2.pos.map (fun t => (⟨p.1, t⟩ : SidRow))),
        xref := db.xref ++ (List.enumFrom db.sense.length ss).flatMap
          (fun p => p.2.xref.map (fun t => (⟨p.1, t⟩ : SidRow))),
        antonym := db.antonym ++ (List.enumFrom db.sense.length ss).flatMap
          (fun p => p.2.antonym.map (fun t => (⟨p.1, t⟩ : SidRow))),
        field := db.field ++ (List.enumFrom db.sense.length ss).flatMap
          (fun p => p.2.field.map (fun t => (⟨p.1, t⟩ : SidRow))),
        misc := db.misc ++ (List.enumFrom db.sense.length ss).flatMap
          (fun p => p.2.misc.map (fun t => (⟨p.1, t⟩ : SidRow))),
        senseInfo := db.senseInfo ++ (List.enumFrom db.sense.length ss).flatMap
          (fun p => p.2.info.map (fun t => (⟨p.1, t⟩ : SidRow))),
        senseSource := db.senseSource ++ (List.enumFrom db.sense.length ss).flatMap
          (fun p => p.2.lsource.map
            (fun l => (⟨p.1, l.text, l.lang, l.lstype, l.wasei⟩ : SenseSourceRow))),
        dialect := db.dialect ++ (List.enumFrom db.sense.length ss).flatMap
          (fun p => p.2.dialect.map (fun t => (⟨p.1, t⟩ : SidRow))),
        senseGloss := db.senseGloss ++ (List.enumFrom db.sense.length ss).flatMap
          (fun p => p.2.gloss.map
            (fun g => (⟨p.1, g.lang, g.gend, g.text⟩ : SenseGlossRow))) } := by
  intro ss
  induction ss with
  | nil => intro db; simp
  | cons s ss ih =>
      intro db
      rw [List.foldl_cons, ih]
      simp [insertSense, List.enumFrom_cons, List.flatMap_cons, List.append_assoc,
        Nat.add_comm]



/-- Reading back the KidRow children of one enumerated parent recovers that parent list of strings. -/
theorem kidRows_readback {α : Type} (items : α → List String) (ks : List α) (i : Nat)
    (k : α) (h : (i, k) ∈ List.enumFrom 0 ks) :
    (((List.enumFrom 0 ks).flatMap
        (fun p => (items p.2).map (fun t => (⟨p.1, t⟩ : KidRow)))).filter
      (fun r => r.kid == i)).map (fun r => r.text) = items k := by
  rw [filter_flatMap_enumFrom KidRow.kid (fun i t => ⟨i, t⟩) items (fun _ _ => rfl) ks 0 i k h]
  rw [List.map_map]
  exact List.map_id _

/-- Reading back the SidRow children of one enumerated sense recovers that sense list of strings. -/
theorem sidRows_readback {α : Type} (items : α → List String) (ks : List α) (i : Nat)
    (k : α) (h : (i, k) ∈ List.enumFrom 0 ks) :
    (((List.enumFrom 0 ks).flatMap
        (fun p => (items p.2).map (fun t => (⟨p.1, t⟩ : SidRow)))).filter
      (fun r => r.sid == i)).map (fun r => r.text) = items k := by
  rw [filter_flatMap_enumFrom SidRow.sid (fun i t => ⟨i, t⟩) items (fun _ _ => rfl) ks 0 i k h]
  rw [List.map_map]
  exact List.map_id _

/-- Reading back the lsource rows of one enumerated sense recovers its LSource list. -/
theorem lsourceRows_readback (ss : List Sense) (i : Nat) (s : Sense)
    (h : (i, s) ∈ List.enumFrom 0 ss) :
    (((List.enumFrom 0 ss).flatMap
        (fun p => p.2.lsource.map
          (fun l => (⟨p.1, l.text, l.lang, l.lstype, l.wasei⟩ : SenseSourceRow)))).filter
      (fun r => r.sid == i)).map
        (fun r => (⟨r.lang, r.lstype, r.wasei, r.text⟩ : LSource)) = s.lsource := by
  rw [filter_flatMap_enumFrom SenseSourceRow.sid
    (fun i l => ⟨i, l.text, l.lang, l.lstype, l.wasei⟩) Sense.lsource
    (fun _ _ => rfl) ss 0 i s h]
  rw [List.map_map]
  exact List.map_id _

/-- Reading back the gloss rows of one enumerated sense recovers its SenseGloss list. -/
theorem glossRows_readback (ss : List Sense) (i : Nat) (s : Sense)
    (h : (i, s) ∈ List.enumFrom 0 ss) :
    (((List.enumFrom 0 ss).flatMap
        (fun p => p.2.gloss.map
          (fun g => (⟨p.1, g.lang, g.gend, g.text⟩ : SenseGlossRow)))).filter
      (fun r => r.sid == i)).map
        (fun r => (⟨r.lang, r.gend, r.text⟩ : SenseGloss)) = s.gloss := by
  rw [filter_flatMap_enumFrom SenseGlossRow.sid
    (fun i g => ⟨i, g.lang, g.gend, g.text⟩) Sense.gloss
    (fun _ _ => rfl) ss 0 i s h]
  rw [List.map_map]
  exact List.map_id _



/-- Entries without an info block round-trip through insertEntry and getEntry whenever their senses carry no examples and no name_type. -/
theorem insert_get_full_roundtrip_none (idseq : Nat) (ks : List KanjiForm)
    (kns : List KanaForm) (ss : List Sense)
    (hsense : ∀ s ∈ ss, s.examples = [] ∧ s.name_type = []) :
    (insertEntry (⟨idseq, ks, kns, none, ss⟩ : JMDEntry) emptyDB).map
      (fun db => getEntry db idseq) = some (⟨idseq, ks, kns, none, ss⟩ : JMDEntry) := by
  have hins : insertEntry (⟨idseq, ks, kns, none, ss⟩ : JMDEntry) emptyDB =
      some (ss.foldl (fun db s => insertSense db idseq s)
        ((kns.foldl (fun db kn => insertKanaForm db idseq kn)
          (ks.foldl (fun db kj => insertKanjiForm db idseq kj)
            { emptyDB with entry := [idseq] })))) := rfl
  rw [hins, kanjiFold_eq, kanaFold_eq, senseFold_eq]
  simp only [emptyDB, List.length_nil, List.nil_append, Option.map_some']
  simp only [getEntry, getSense]
  rw [Option.some.injEq, JMDEntry.mk.injEq]
  refine ⟨rfl, ?_, ?_, ?_, ?_⟩
  · -- kanji forms
    rw [List.filter_eq_self.mpr (by
      intro r hr
      obtain ⟨p, hp, rfl⟩ := List.mem_map.mp hr
      simp)]
    rw [List.map_map]
    rw [List.map_congr_left (by
      intro p hp
      obtain ⟨i, kj⟩ := p
      show (⟨(⟨i, idseq, kj.text⟩ : KanjiRow).text, _, _⟩ : KanjiForm) = kj
      simp only
      rw [kidRows_readback KanjiForm.info ks i kj hp,
        kidRows_readback KanjiForm.pri ks i kj hp]
      : ∀ p ∈ List.enumFrom 0 ks, _ = Prod.snd p)]
    exact List.enumFrom_map_snd 0 ks
  · -- kana forms
    rw [List.filter_eq_self.mpr (by
      intro r hr
      obtain ⟨p, hp, rfl⟩ := List.mem_map.mp hr
      simp)]
    rw [List.map_map]
    rw [List.map_congr_left (by
      intro p hp
      obtain ⟨i, kn⟩ := p
      show (⟨(⟨i, idseq, kn.text, kn.nokanji⟩ : KanaRow).text, _, _, _, _⟩ : KanaForm) = kn
      simp only
      rw [kidRows_readback KanaForm.restr kns i kn hp,
        kidRows_readback KanaForm.info kns i kn hp,
        kidRows_readback KanaForm.pri kns i kn hp]
      : ∀ p ∈ List.enumFrom 0 kns, _ = Prod.snd p)]
    exact List.enumFrom_map_snd 0 kns
  · -- info block: all four tables are empty
    simp
  · -- senses
    rw [List.filter_eq_self.mpr (by
      intro r hr
      obtain ⟨p, hp, rfl⟩ := List.mem_map.mp hr
      simp)]
    rw [List.map_map]
    rw [List.map_congr_left (by
      intro p hp
      obtain ⟨i, s⟩ := p
      have hsmem : s ∈ ss := by
        have hm := List.mem_map_of_mem Prod.snd hp
        rw [List.enumFrom_map_snd] at hm
        exact hm
      obtain ⟨hex, hnt⟩ := hsense s hsmem
      show (⟨_, _, _, _, _, _, _, _, _, _, _, emptySense.examples,
        emptySense.name_type⟩ : Sense) = s
      simp only
      rw [sidRows_readback Sense.stagk ss i s hp,
        sidRows_readback Sense.stagr ss i s hp,
        sidRows_readback Sense.pos ss i s hp,
        sidRows_readback Sense.xref ss i s hp,
        sidRows_readback Sense.antonym ss i s hp,
        sidRows_readback Sense.field ss i s hp,
        sidRows_readback Sense.misc ss i s hp,
        sidRows_readback Sense.info ss i s hp,
        lsourceRows_readback ss i s hp,
        sidRows_readback Sense.dialect ss i s hp,
        glossRows_readback ss i s hp]
      obtain ⟨f1, f2, f3, f4, f5, f6, f7, f8, f9, f10, f11, f12, f13⟩ := s
      simp only at hex hnt
      rw [hex, hnt]
      rfl
      : ∀ p ∈ List.enumFrom 0 ss, _ = Prod.snd p)]
    exact List.enumFrom_map_snd 0 ss



/-- Entries whose info block has no etym strings and at least one link, bibinfo or audit round-trip through insertEntry and getEntry. -/
theorem insert_get_full_roundtrip_info (idseq : Nat) (ks : List KanjiForm)
    (kns : List KanaForm) (ss : List Sense) (links : List Link) (bibs : List BibInfo)
    (audits : List Audit)
    (hne : links ≠ [] ∨ bibs ≠ [] ∨ audits ≠ [])
    (hsense : ∀ s ∈ ss, s.examples = [] ∧ s.name_type = []) :
    (insertEntry (⟨idseq, ks, kns, some ⟨links, bibs, [], audits⟩, ss⟩ : JMDEntry)
        emptyDB).map (fun db => getEntry db idseq) =
      some (⟨idseq, ks, kns, some ⟨links, bibs, [], audits⟩, ss⟩ : JMDEntry) := by
  have hins : insertEntry
      (⟨idseq, ks, kns, some ⟨links, bibs, [], audits⟩, ss⟩ : JMDEntry) emptyDB =
      some (ss.foldl (fun db s => insertSense db idseq s)
        ((kns.foldl (fun db kn => insertKanaForm db idseq kn)
          (ks.foldl (fun db kj => insertKanjiForm db idseq kj)
            { emptyDB with
              entry := [idseq],
              link := links.map (fun l => ⟨idseq, l.tag, l.desc, l.uri⟩),
              bib := bibs.map (fun b => ⟨idseq, b.tag, b.text⟩),
              etym := [],
              audit := audits.map (fun a => ⟨idseq, a.upd_date, a.upd_detl⟩) })))) := rfl
  rw [hins, kanjiFold_eq, kanaFold_eq, senseFold_eq]
  simp only [emptyDB, List.length_nil, List.nil_append, Option.map_some']
  simp only [getEntry, getSense]
  rw [Option.some.injEq, JMDEntry.mk.injEq]
  refine ⟨rfl, ?_, ?_, ?_, ?_⟩
  · -- kanji forms
    rw [List.filter_eq_self.mpr (by
      intro r hr
      obtain ⟨p, hp, rfl⟩ := List.mem_map.mp hr
      simp)]
    rw [List.map_map]
    rw [List.map_congr_left (by
      intro p hp
      obtain ⟨i, kj⟩ := p
      show (⟨(⟨i, idseq, kj.text⟩ : KanjiRow).text, _, _⟩ : KanjiForm) = kj
      simp only
      rw [kidRows_readback KanjiForm.info ks i kj hp,
        kidRows_readback KanjiForm.pri ks i kj hp]
      : ∀ p ∈ List.enumFrom 0 ks, _ = Prod.snd p)]
    exact List.enumFrom_map_snd 0 ks
  · -- kana forms
    rw [List.filter_eq_self.mpr (by
      intro r hr
      obtain ⟨p, hp, rfl⟩ := List.mem_map.mp hr
      simp)]
    rw [List.map_map]
    rw [List.map_congr_left (by
      intro p hp
      obtain ⟨i, kn⟩ := p
      show (⟨(⟨i, idseq, kn.text, kn.nokanji⟩ : KanaRow).text, _, _, _, _⟩ : KanaForm) = kn
      simp only
      rw [kidRows_readback KanaForm.restr kns i kn hp,
        kidRows_readback KanaForm.info kns i kn hp,
        kidRows_readback KanaForm.pri kns i kn hp]
      : ∀ p ∈ List.enumFrom 0 kns, _ = Prod.snd p)]
    exact List.enumFrom_map_snd 0 kns
  · -- info block
    have hfL : List.filter (fun r => r.idseq == idseq)
        (links.map (fun l => (⟨idseq, l.tag, l.desc, l.uri⟩ : LinkRow))) =
        links.map (fun l => ⟨idseq, l.tag, l.desc, l.uri⟩) :=
      List.filter_eq_self.mpr (by
        intro r hr
        obtain ⟨l, hl, rfl⟩ := List.mem_map.mp hr
        simp)
    have hfB : List.filter (fun r => r.idseq == idseq)
        (bibs.map (fun b => (⟨idseq, b.tag, b.text⟩ : BibRow))) =
        bibs.map (fun b => ⟨idseq, b.tag, b.text⟩) :=
      List.filter_eq_self.mpr (by
        intro r hr
        obtain ⟨b, hb, rfl⟩ := List.mem_map.mp hr
        simp)
    have hfA : List.filter (fun r => r.idseq == idseq)
        (audits.map (fun a => (⟨idseq, a.upd_date, a.upd_detl⟩ : AuditRow))) =
        audits.map (fun a => ⟨idseq, a.upd_date, a.upd_detl⟩) :=
      List.filter_eq_self.mpr (by
        intro r hr
        obtain ⟨a, ha, rfl⟩ := List.mem_map.mp hr
        simp)
    rw [hfL, hfB, hfA]
    have hL : (links.map (fun l => (⟨idseq, l.tag, l.desc, l.uri⟩ : LinkRow))).map
        (fun l => (⟨l.tag, l.desc, l.uri⟩ : Link)) = links := by
      rw [List.map_map]
      exact List.map_id _
    have hB : (bibs.map (fun b => (⟨idseq, b.tag, b.text⟩ : BibRow))).map
        (fun b => (⟨b.tag, b.text⟩ : BibInfo)) = bibs := by
      rw [List.map_map]
      exact List.map_id _
    have hA : (audits.map (fun a => (⟨idseq, a.upd_date, a.upd_detl⟩ : AuditRow))).map
        (fun a => (⟨a.upd_date, a.upd_detl⟩ : Audit)) = audits := by
      rw [List.map_map]
      exact List.map_id _
    rw [hL, hB, hA]
    rcases hne with h | h | h
    · rcases links with _ | ⟨l0, ls⟩
      · exact absurd rfl h
      · simp
    · rcases bibs with _ | ⟨b0, bs⟩
      · exact absurd rfl h
      · simp
    · rcases audits with _ | ⟨a0, as⟩
      · exact absurd rfl h
      · simp
  · -- senses
    rw [List.filter_eq_self.mpr (by
      intro r hr
      obtain ⟨p, hp, rfl⟩ := List.mem_map.mp hr
      simp)]
    rw [List.map_map]
    rw [List.map_congr_left (by
      intro p hp
      obtain ⟨i, s⟩ := p
      have hsmem : s ∈ ss := by
        have hm := List.mem_map_of_mem Prod.snd hp
        rw [List.enumFrom_map_snd] at hm
        exact hm
      obtain ⟨hex, hnt⟩ := hsense s hsmem
      show (⟨_, _, _, _, _, _, _, _, _, _, _, emptySense.examples,
        emptySense.name_type⟩ : Sense) = s
      simp only
      rw [sidRows_readback Sense.stagk ss i s hp,
        sidRows_readback Sense.stagr ss i s hp,
        sidRows_readback Sense.pos ss i s hp,
        sidRows_readback Sense.xref ss i s hp,
        sidRows_readback Sense.antonym ss i s hp,
        sidRows_readback Sense.field ss i s hp,
        sidRows_readback Sense.misc ss i s hp,
        sidRows_readback Sense.info ss i s hp,
        lsourceRows_readback ss i s hp,
        sidRows_readback Sense.dialect ss i s hp,
        glossRows_readback ss i s hp]
      obtain ⟨f1, f2, f3, f4, f5, f6, f7, f8, f9, f10, f11, f12, f13⟩ := s
      simp only at hex hnt
      rw [hex, hnt]
      rfl
      : ∀ p ∈ List.enumFrom 0 ss, _ = Prod.snd p)]
    exact List.enumFrom_map_snd 0 ss

/-- General round-trip: every entry avoiding the unpersisted parts (etym strings, empty info block, sense examples, name_type) is read back unchanged, so the etym arm is the sole list-content divergence in the relational mapper. -/
theorem insert_get_full_roundtrip (e : JMDEntry)
    (hinfo : e.info = none ∨ ∃ i, e.info = some i ∧ i.etym = [] ∧
      (i.links ≠ [] ∨ i.bibinfo ≠ [] ∨ i.audit ≠ []))
    (hsense : ∀ s ∈ e.senses, s.examples = [] ∧ s.name_type = []) :
    (insertEntry e emptyDB).map (fun db => getEntry db e.idseq) = some e := by
  obtain ⟨idseq, ks, kns, einfo, ss⟩ := e
  simp only at hinfo hsense ⊢
  rcases hinfo with hn | ⟨i, hs, hety, hne⟩
  · rw [hn] at *
    exact insert_get_full_roundtrip_none idseq ks kns ss hsense
  · obtain ⟨links, bibs, etym0, audits⟩ := i
    simp only at hety hne
    rw [hs] at *
    rw [hety] at *
    exact insert_get_full_roundtrip_info idseq ks kns ss links bibs audits hne hsense

end Jamdict
